import Mathlib

/-!
# Verification of the ToF-camera PLY loader and streaming simulator

Shallow embedding of the core of `gui/hardware_simulator.py` (class
`ToFCameraSimulator`: `load_ply_file`, `connect_hardware`,
`disconnect_hardware`, `start_data_stream`, `points_to_bytes`,
`stop_data_stream`) and of the binary writer `gui/create_test_ply.py`
(`create_test_ply`), together with proofs of the specification's testable
properties.

Modelling conventions:
* A file is a `List Nat` of byte values.  Text decoding is modelled at the
  byte level (the files of interest are ASCII; a byte sequence strips/splits
  the same way its decoded string does).
* A 32-bit float is modelled by its 4-byte little-endian memory image
  (`F32`): the loader's `struct.unpack('fff')` followed by the packetizer's
  `struct.pack('<fff')` is the identity on those bytes, and no arithmetic is
  ever performed on positions.  (CPython runs on a little-endian host here,
  so the loader's native `'fff'` layout coincides with `'<fff'`.)
* Normalized color channels (`r/255` and the `0.5` gray default) are exact
  rationals, so they are modelled in `ℚ`; Python's `int()` truncation toward
  zero is `truncQ`.
* Python's `float(token)` builtin (used only by the ASCII body parser) is an
  external function and is passed in as a parameter `pyFloat`; `int(token)`
  is modelled by `pyIntDec` (decimal with optional sign; Python additionally
  accepts underscore digit separators, which never occur in the files
  produced or consumed by this repository).
* Exceptions (all caught by `load_ply_file`'s `except` clause, or escaping
  from the stream generator) are modelled by `Option`/explicit outcomes.
-/

/-! ## Byte-string primitives (`bytes.decode().strip()`, `str.split()`) -/

/-- ASCII whitespace bytes recognised by Python's `str.strip`/`str.split`. -/
def wsByte (b : Nat) : Bool :=
  b = 32 || b = 9 || b = 10 || b = 13 || b = 11 || b = 12

/-- Byte values of a (pure-ASCII) Lean string literal. -/
def strBytes (s : String) : List Nat :=
  s.toList.map Char.toNat

/-- `f.readline()`: the bytes up to and including the first newline
(byte 10), and the remaining bytes.  At end of file both are empty. -/
def readLine : List Nat → List Nat × List Nat
  | [] => ([], [])
  | b :: bs =>
    if b = 10 then ([10], bs)
    else
      let r := readLine bs
      (b :: r.1, r.2)

/-- `str.strip()`: drop leading and trailing whitespace bytes. -/
def pyStrip (l : List Nat) : List Nat :=
  ((l.dropWhile wsByte).reverse.dropWhile wsByte).reverse

/-- Helper for `pySplit`: `cur` is the current token, reversed. -/
def pySplitAux : List Nat → List Nat → List (List Nat)
  | [], cur => if cur = [] then [] else [cur.reverse]
  | b :: bs, cur =>
    if wsByte b then
      if cur = [] then pySplitAux bs [] else cur.reverse :: pySplitAux bs []
    else
      pySplitAux bs (b :: cur)

/-- `str.split()` with no argument: split on runs of whitespace, no empty
tokens. -/
def pySplit (l : List Nat) : List (List Nat) :=
  pySplitAux l []

/-- Is `b` an ASCII decimal digit byte? -/
def digitByte (b : Nat) : Bool :=
  48 ≤ b && b ≤ 57

/-- Value of a digit-byte string read most-significant first. -/
def decVal (ds : List Nat) : Nat :=
  ds.foldl (fun a d => a * 10 + (d - 48)) 0

/-- Python's `int(token)` on a stripped token: an optional sign followed by a
nonempty run of decimal digits; anything else raises `ValueError` (`none`). -/
def pyIntDec (tok : List Nat) : Option Int :=
  match tok with
  | [] => none
  | b :: rest =>
    if b = 43 then
      if rest ≠ [] ∧ rest.all digitByte then some (decVal rest : Nat) else none
    else if b = 45 then
      if rest ≠ [] ∧ rest.all digitByte then some (-(decVal rest : Nat)) else none
    else if (b :: rest).all digitByte then some (decVal (b :: rest) : Nat)
    else none

/-- Decimal rendering of a natural number (the f-string `{n}`), with explicit
fuel to keep the recursion structural; `natToDec` supplies enough fuel. -/
def natToDecAux : Nat → Nat → List Nat
  | 0, n => [48 + n % 10]
  | f + 1, n => if n < 10 then [48 + n] else natToDecAux f (n / 10) ++ [48 + n % 10]

/-- Decimal ASCII bytes of `n`. -/
def natToDec (n : Nat) : List Nat :=
  natToDecAux n n

/-! ## Data model -/

/-- A 32-bit float, represented by its little-endian 4-byte memory image. -/
structure F32 where
  b0 : Nat
  b1 : Nat
  b2 : Nat
  b3 : Nat
deriving DecidableEq, Repr

/-- One 3D point (`[x, y, z]` in the Python lists). -/
structure Point3 where
  x : F32
  y : F32
  z : F32
deriving DecidableEq, Repr

/-- One normalized color (`[r/255, g/255, b/255]` or the `0.5` gray). -/
structure Color3 where
  r : ℚ
  g : ℚ
  b : ℚ
deriving DecidableEq, Repr

/-- The default gray color `[0.5, 0.5, 0.5]`. -/
def grayColor : Color3 :=
  ⟨1/2, 1/2, 1/2⟩

/-- The `info` dictionary built by `load_ply_file`'s header parse. -/
structure PlyInfo where
  num_points : Int
  num_faces : Int
  has_color : Bool
  format_type : List Nat
  properties : List (List Nat × List Nat)
deriving DecidableEq, Repr

/-- Initial `info` value (`format_type` starts as `'unknown'`). -/
def initInfo : PlyInfo :=
  { num_points := 0, num_faces := 0, has_color := false,
    format_type := strBytes "unknown", properties := [] }

def plyTok : List Nat := strBytes "ply"
def endHeaderTok : List Nat := strBytes "end_header"
def formatTok : List Nat := strBytes "format"
def elementTok : List Nat := strBytes "element"
def vertexTok : List Nat := strBytes "vertex"
def faceTok : List Nat := strBytes "face"
def propertyTok : List Nat := strBytes "property"
def redTok : List Nat := strBytes "red"
def greenTok : List Nat := strBytes "green"
def blueTok : List Nat := strBytes "blue"
def asciiTok : List Nat := strBytes "ascii"

/-! ## Header parsing (`load_ply_file` lines 56–77) -/

/-- Effect of one whitespace-tokenized header line on `info`.  `none` models
an uncaught exception inside the parse (`int(parts[2])` failing or missing),
which `load_ply_file` converts to a failed load. -/
def headerDispatch (parts : List (List Nat)) (info : PlyInfo) : Option PlyInfo :=
  match parts with
  | p0 :: p1 :: tail =>
    if p0 = formatTok then
      some { info with format_type := p1 }
    else if p0 = elementTok then
      if p1 = vertexTok then
        match tail[0]? with
        | some t => (pyIntDec t).map fun n => { info with num_points := n }
        | none => none
      else if p1 = faceTok then
        match tail[0]? with
        | some t => (pyIntDec t).map fun n => { info with num_faces := n }
        | none => none
      else some info
    else if p0 = propertyTok then
      let nm := tail.getD 0 []
      some { info with
             properties := info.properties ++ [(p1, nm)],
             has_color := info.has_color ||
               (nm = redTok || nm = greenTok || nm = blueTok) }
    else some info
  | _ => some info

/-- The `while True` header loop, with explicit fuel (one unit per line read;
each line consumes at least one byte, so `bs.length` units suffice).  `none`
covers the fuel-exhausted and end-of-file cases: at EOF Python's loop would
spin on empty `readline()` results forever, so no successful load ever comes
out of that path. -/
def parseHeaderAux : Nat → List Nat → PlyInfo → Option (PlyInfo × List Nat)
  | _, [], _ => none
  | 0, _ :: _, _ => none
  | f + 1, b :: bs, info =>
    let r := readLine (b :: bs)
    let s := pyStrip r.1
    if s = endHeaderTok then some (info, r.2)
    else
      match headerDispatch (pySplit s) info with
      | none => none
      | some info2 => parseHeaderAux f r.2 info2

/-- Header loop entry point. -/
def parseHeader (bs : List Nat) (info : PlyInfo) : Option (PlyInfo × List Nat) :=
  parseHeaderAux bs.length bs info

/-! ## Body parsing (`load_ply_file` lines 79–113) -/

/-- Reassemble an `F32` from (up to) 4 bytes. -/
def f32ofBytes (l : List Nat) : F32 :=
  ⟨l.getD 0 0, l.getD 1 0, l.getD 2 0, l.getD 3 0⟩

/-- `struct.unpack('fff', data)` on a 12-byte buffer. -/
def unpack3f (d : List Nat) : Point3 :=
  ⟨f32ofBytes (d.take 4), f32ofBytes ((d.drop 4).take 4), f32ofBytes ((d.drop 8).take 4)⟩

/-- `struct.pack('<fff', x, y, z)`. -/
def pack3f (p : Point3) : List Nat :=
  [p.x.b0, p.x.b1, p.x.b2, p.x.b3,
   p.y.b0, p.y.b1, p.y.b2, p.y.b3,
   p.z.b0, p.z.b1, p.z.b2, p.z.b3]

/-- Normalize three color bytes: `[r/255, g/255, b/255]`. -/
def normColor (r g b : Nat) : Color3 :=
  ⟨(r : ℚ) / 255, (g : ℚ) / 255, (b : ℚ) / 255⟩

/-- Binary body loop (lines 96–113): for each of `count` declared points,
`f.read(12)`; a full position record is parsed (then `f.read(3)` for color
when the header declared one, gray when those bytes run short); a short
position read appends nothing but keeps looping, so a truncated body yields
a shorter result instead of an error. -/
def readBinPoints (hasColor : Bool) : Nat → List Nat → List Point3 × List Color3
  | 0, _ => ([], [])
  | n + 1, bs =>
    let data := bs.take 12
    if data.length = 12 then
      let p := unpack3f data
      if hasColor then
        let rest := bs.drop 12
        let cd := rest.take 3
        let c := if h : cd.length = 3 then
            normColor (cd.get ⟨0, by omega⟩) (cd.get ⟨1, by omega⟩) (cd.get ⟨2, by omega⟩)
          else grayColor
        let r := readBinPoints hasColor n (rest.drop 3)
        (p :: r.1, c :: r.2)
      else
        let r := readBinPoints false n (bs.drop 12)
        (p :: r.1, grayColor :: r.2)
    else
      readBinPoints hasColor n (bs.drop 12)

/-- ASCII body loop (lines 83–94): one line per declared point; missing or
unparsable coordinate tokens raise (failing the whole load); color tokens are
parsed only when the header declared colors and the line has ≥ 6 tokens, and
a failing `int()` there also fails the load; otherwise gray. -/
def readAsciiPoints (pyFloat : List Nat → Option F32) (hasColor : Bool) :
    Nat → List Nat → Option (List Point3 × List Color3)
  | 0, _ => some ([], [])
  | n + 1, bs =>
    let r := readLine bs
    let vals := pySplit (pyStrip r.1)
    match vals[0]?, vals[1]?, vals[2]? with
    | some t0, some t1, some t2 =>
      match pyFloat t0, pyFloat t1, pyFloat t2 with
      | some x, some y, some z =>
        let col? : Option Color3 :=
          if hasColor ∧ 6 ≤ vals.length then
            match pyIntDec (vals.getD 3 []), pyIntDec (vals.getD 4 []),
                  pyIntDec (vals.getD 5 []) with
            | some cr, some cg, some cb =>
              some ⟨(cr : ℚ) / 255, (cg : ℚ) / 255, (cb : ℚ) / 255⟩
            | _, _, _ => none
          else some grayColor
        match col? with
        | none => none
        | some c =>
          (readAsciiPoints pyFloat hasColor n r.2).map fun pr =>
            (⟨x, y, z⟩ :: pr.1, c :: pr.2)
      | _, _, _ => none
    | _, _, _ => none

/-- Pure core of `load_ply_file` on the raw bytes of an existing file:
magic check, header parse, then the body branch selected by `format_type`
(anything other than `'ascii'` is read as binary).  `none` is a `False`
return (any raised exception is caught at line 127). -/
def loadPLYContent (pyFloat : List Nat → Option F32) (content : List Nat) :
    Option (List Point3 × List Color3 × PlyInfo) :=
  let r := readLine content
  if pyStrip r.1 ≠ plyTok then none
  else
    match parseHeader r.2 initInfo with
    | none => none
    | some (info, body) =>
      if info.format_type = asciiTok then
        (readAsciiPoints pyFloat info.has_color info.num_points.toNat body).map
          fun pr => (pr.1, pr.2, info)
      else
        let pr := readBinPoints info.has_color info.num_points.toNat body
        some (pr.1, pr.2, info)

/-! ## Session state and state machine -/

/-- The mutable fields of `ToFCameraSimulator`. -/
structure SimState where
  current_ply_file : Option (List Nat)
  points : Option (List Point3)
  colors : Option (List Color3)
  info : Option PlyInfo
  is_connected : Bool
  streaming : Bool
deriving DecidableEq, Repr

/-- Freshly constructed simulator: everything empty/false. -/
def initState : SimState :=
  { current_ply_file := none, points := none, colors := none, info := none,
    is_connected := false, streaming := false }

/-- `load_ply_file(filename)`.  `content?` is the filesystem's answer for
`filename` (`none`: the file does not exist).  The simulator's fields are
assigned only after the whole parse has succeeded (lines 115–118); every
failure path returns `False` with the state untouched. -/
def load_ply_file (pyFloat : List Nat → Option F32) (content? : Option (List Nat))
    (fname : List Nat) (s : SimState) : Bool × SimState :=
  match content? with
  | none => (false, s)
  | some content =>
    match loadPLYContent pyFloat content with
    | none => (false, s)
    | some (ps, cs, info) =>
      (true,
       { s with
         points := some ps,
         colors := some cs,
         info := some info,
         current_ply_file := some fname })

/-- `connect_hardware()`: requires a loaded file. -/
def connect_hardware (s : SimState) : Bool × SimState :=
  match s.current_ply_file with
  | none => (false, s)
  | some _ => (true, { s with is_connected := true })

/-- `disconnect_hardware()`: clears the two flags (and nothing else). -/
def disconnect_hardware (s : SimState) : SimState :=
  { s with is_connected := false, streaming := false }

/-- `stop_data_stream()`. -/
def stop_data_stream (s : SimState) : SimState :=
  { s with streaming := false }

/-! ## Packet serialization (`points_to_bytes`, lines 200–218) -/

/-- Python `int()` on a rational: truncation toward zero. -/
def truncQ (q : ℚ) : Int :=
  if 0 ≤ q then ⌊q⌋ else ⌈q⌉

/-- `struct.pack('<B', v)`: a byte in `[0, 255]`, or `struct.error`. -/
def packUByte (v : Int) : Option Nat :=
  if 0 ≤ v ∧ v ≤ 255 then some v.toNat else none

/-- Serialize one supplied color: `int(c * 255)` per channel, packed as
unsigned bytes. -/
def packColorQ (c : Color3) : Option (List Nat) :=
  match packUByte (truncQ (c.r * 255)), packUByte (truncQ (c.g * 255)),
        packUByte (truncQ (c.b * 255)) with
  | some r, some g, some b => some [r, g, b]
  | _, _, _ => none

/-- The `enumerate(points)` loop of `points_to_bytes`, carrying the index. -/
def ptbAux (colors : Option (List Color3)) : List Point3 → Nat → Option (List Nat)
  | [], _ => some []
  | p :: ps, i =>
    let cbytes? : Option (List Nat) :=
      match colors with
      | some cs => if h : i < cs.length then packColorQ (cs.get ⟨i, h⟩)
                   else some [128, 128, 128]
      | none => some [128, 128, 128]
    match cbytes? with
    | none => none
    | some cb =>
      (ptbAux colors ps (i + 1)).map fun rest => pack3f p ++ cb ++ rest

/-- `points_to_bytes(points, colors)`: 12 position bytes then 3 color bytes
per point; `(128, 128, 128)` when no color is supplied for that index;
`none` models a `struct.error` escaping the call. -/
def points_to_bytes (points : List Point3) (colors : Option (List Color3)) :
    Option (List Nat) :=
  ptbAux colors points 0

/-! ## Streaming (`start_data_stream`, lines 154–198) -/

/-- One emitted packet (the yielded dictionary). -/
structure Packet where
  packet_id : Nat
  points : List Point3
  colors : Option (List Color3)
  raw_bytes : List Nat
  progress : ℚ
  description : String
deriving DecidableEq, Repr

/-- Number of iterations of `for i in range(0, total, P)` (for `P > 0`):
`⌈total / P⌉`. -/
def numPackets (total P : Nat) : Nat :=
  (total + P - 1) / P

/-- The packet built (and yielded) at loop iteration `k` (0-based), or `none`
when `points_to_bytes` raises. -/
def mkPacket (pts : List Point3) (cols : Option (List Color3)) (P k : Nat) :
    Option Packet :=
  let total := pts.length
  let i := k * P
  let e := min (i + P) total
  let pp := (pts.drop i).take (e - i)
  let pc := cols.map fun cs => (cs.drop i).take (e - i)
  match points_to_bytes pp pc with
  | none => none
  | some raw =>
    some { packet_id := k + 1,
           points := pp,
           colors := pc,
           raw_bytes := raw,
           progress := ((e : ℚ) / (total : ℚ)) * 100,
           description := "Hardware Packet #" ++ Nat.repr (k + 1) ++ ": "
             ++ Nat.repr pp.length ++ " points" }

/-- The streaming loop from iteration `k`, with fuel (`numPackets` at entry).
`stop k` is whether an external `stop_data_stream` call has cleared the
`streaming` flag before the check at the top of iteration `k`.  Result:
emitted packets, the `streaming` flag at loop exit, and whether a
serialization error escaped. -/
def streamLoopF (pts : List Point3) (cols : Option (List Color3)) (P : Nat)
    (stop : Nat → Bool) : Nat → Nat → List Packet × Bool × Bool
  | 0, _ => ([], true, false)
  | fuel + 1, k =>
    if stop k then ([], false, false)
    else
      match mkPacket pts cols P k with
      | none => ([], true, true)
      | some pkt =>
        let r := streamLoopF pts cols P stop fuel (k + 1)
        (pkt :: r.1, r.2.1, r.2.2)

/-- Exit status of one `start_data_stream` run. -/
inductive StreamOutcome where
  | notConnected
  | noData
  | valueError
  | streamError
  | stopped
  | completed
deriving DecidableEq, Repr

/-- `start_data_stream(points_per_packet)` driven to exhaustion by its
consumer: the precondition checks (returning before any packet and before
`streaming` is touched), then the emission loop.  `P = 0` makes Python's
`range` raise after `streaming` was already set.  The generator never clears
`streaming` itself; it is `false` at exit only when a stop request was
observed. -/
def start_data_stream (s : SimState) (P : Nat) (stop : Nat → Bool) :
    StreamOutcome × List Packet × SimState :=
  if s.is_connected = false then (.notConnected, [], s)
  else
    match s.points with
    | none => (.noData, [], s)
    | some pts =>
      if P = 0 then (.valueError, [], { s with streaming := true })
      else
        let r := streamLoopF pts s.colors P stop (numPackets pts.length P) 0
        ((if r.2.2 then .streamError else if r.2.1 then .completed else .stopped),
         r.1, { s with streaming := r.2.1 })

/-! ## The binary writer (`create_test_ply`, lines 28–46) -/

/-- Header bytes written by `create_test_ply` for `n` vertices. -/
def testPlyHeader (n : Nat) : List Nat :=
  strBytes "ply" ++ [10] ++
  strBytes "format binary_little_endian 1.0" ++ [10] ++
  strBytes "element vertex " ++ natToDec n ++ [10] ++
  strBytes "property float x" ++ [10] ++
  strBytes "property float y" ++ [10] ++
  strBytes "property float z" ++ [10] ++
  strBytes "property uchar red" ++ [10] ++
  strBytes "property uchar green" ++ [10] ++
  strBytes "property uchar blue" ++ [10] ++
  strBytes "end_header" ++ [10]

/-- `create_test_ply`'s file contents for points `pts` with byte colors
`cols` (the generated arrays have equal length `num_points`): the header,
then 12 position bytes and 3 color bytes per point. -/
def create_test_ply_bytes (pts : List Point3) (cols : List (Nat × Nat × Nat)) :
    List Nat :=
  testPlyHeader pts.length ++
  (pts.zip cols).flatMap fun pc =>
    pack3f pc.1 ++ [pc.2.1, pc.2.2.1, pc.2.2.2]

/-! ## Claim-side definitions (written from the specification's words) -/

/-- Little-endian byte image of a 32-bit float (claim side). -/
def f32le (f : F32) : List Nat :=
  [f.b0, f.b1, f.b2, f.b3]

/-- Claim side: the three wire color bytes for point index `i` — the
serialized supplied color, or `(128, 128, 128)` for an index without a
supplied color. -/
def wireColorBytes (cols? : Option (List Color3)) (i : Nat) : Option (List Nat) :=
  match cols? with
  | some cs => if h : i < cs.length then packColorQ (cs.get ⟨i, h⟩)
               else some [128, 128, 128]
  | none => some [128, 128, 128]

/-- All channels of a color lie in `[0, 1]` (true of every color a load can
produce from a file with byte colors in range, and of the gray default). -/
def colorInUnit (c : Color3) : Prop :=
  0 ≤ c.r ∧ c.r ≤ 1 ∧ 0 ≤ c.g ∧ c.g ≤ 1 ∧ 0 ≤ c.b ∧ c.b ≤ 1

instance (c : Color3) : Decidable (colorInUnit c) := by
  unfold colorInUnit; infer_instance

/-- One complete binary point record: 12 position bytes, then 3 color bytes
when the header declares colors. -/
def encRec (hc : Bool) (p : Point3) (c : Nat × Nat × Nat) : List Nat :=
  pack3f p ++ (if hc then [c.1, c.2.1, c.2.2] else [])

/-- The property-declaration lines of the canonical binary header. -/
def xyzPropLines : List Nat :=
  strBytes "property float x" ++ [10] ++
  strBytes "property float y" ++ [10] ++
  strBytes "property float z" ++ [10]

/-- The color property-declaration lines. -/
def rgbPropLines : List Nat :=
  strBytes "property uchar red" ++ [10] ++
  strBytes "property uchar green" ++ [10] ++
  strBytes "property uchar blue" ++ [10]

/-- A canonical `binary_little_endian` header declaring `n` vertices (with
color properties iff `hc`), without the magic line. -/
def canonHeaderRest (n : Nat) (hc : Bool) : List Nat :=
  strBytes "format binary_little_endian 1.0" ++ [10] ++
  strBytes "element vertex " ++ natToDec n ++ [10] ++
  xyzPropLines ++ (if hc then rgbPropLines else []) ++
  strBytes "end_header" ++ [10]

/-- A canonical binary file: magic line, canonical header, then the given
body bytes. -/
def mkBinFile (n : Nat) (hc : Bool) (body : List Nat) : List Nat :=
  strBytes "ply" ++ [10] ++ canonHeaderRest n hc ++ body

/-- The `info` resulting from parsing the canonical header. -/
def canonInfo (n : Nat) (hc : Bool) : PlyInfo :=
  { num_points := (n : Int), num_faces := 0, has_color := hc,
    format_type := strBytes "binary_little_endian",
    properties :=
      [(strBytes "float", strBytes "x"), (strBytes "float", strBytes "y"),
       (strBytes "float", strBytes "z")] ++
      (if hc then
        [(strBytes "uchar", strBytes "red"), (strBytes "uchar", strBytes "green"),
         (strBytes "uchar", strBytes "blue")]
       else []) }

/-- Folding `headerDispatch` over a list of header lines (given without their
trailing newline). -/
def foldDispatch : List (List Nat) → PlyInfo → Option PlyInfo
  | [], i => some i
  | l :: ls, i =>
    match headerDispatch (pySplit (pyStrip (l ++ [10]))) i with
    | none => none
    | some i2 => foldDispatch ls i2

/-- Concatenate header lines, adding the newline terminators. -/
def mkLines (ls : List (List Nat)) : List Nat :=
  ls.flatMap (· ++ [10])

/-- The canonical header's lines, without their newline terminators. -/
def canonLines (n : Nat) (hc : Bool) : List (List Nat) :=
  [strBytes "format binary_little_endian 1.0",
   strBytes "element vertex " ++ natToDec n,
   strBytes "property float x",
   strBytes "property float y",
   strBytes "property float z"] ++
  (if hc then
    [strBytes "property uchar red",
     strBytes "property uchar green",
     strBytes "property uchar blue"]
   else [])

/-! ## Concrete artifacts for counterexamples -/

/-- A concrete stand-in for Python's `float(token)` that accepts the token
`0` (as `float('0') = 0.0` does) and rejects everything else. -/
def cexFloatFn : List Nat → Option F32 :=
  fun t => if t = [48] then some ⟨0, 0, 0, 0⟩ else none

/-- An ASCII PLY file declaring one colored vertex whose red token is `300`:
`load_ply_file` accepts it (`int('300')` succeeds and `300/255` is stored),
but streaming it later makes `struct.pack('<BBB', 300, 0, 0)` raise. -/
def cexContent : List Nat :=
  strBytes "ply" ++ [10] ++
  strBytes "format ascii 1.0" ++ [10] ++
  strBytes "element vertex 1" ++ [10] ++
  strBytes "property float x" ++ [10] ++
  strBytes "property float y" ++ [10] ++
  strBytes "property float z" ++ [10] ++
  strBytes "property uchar red" ++ [10] ++
  strBytes "property uchar green" ++ [10] ++
  strBytes "property uchar blue" ++ [10] ++
  strBytes "end_header" ++ [10] ++
  strBytes "0 0 0 300 0 0" ++ [10]

/-- Session state after loading the out-of-range-color file. -/
def cexLoaded : SimState :=
  (load_ply_file cexFloatFn (some cexContent) (strBytes "bad.ply") initState).2

/-- ... and after connecting. -/
def cexConnected : SimState :=
  (connect_hardware cexLoaded).2

/-- A small connected session (two points, gray colors) used to exercise the
streaming claims on concrete inputs.  The second point's coordinate bytes are
the little-endian float images of 1.0, 2.0 and 3.0. -/
def demoSession : SimState :=
  { current_ply_file := some (strBytes "demo.ply"),
    points := some [⟨⟨0, 0, 0, 0⟩, ⟨0, 0, 0, 0⟩, ⟨0, 0, 0, 0⟩⟩,
                    ⟨⟨0, 0, 128, 63⟩, ⟨0, 0, 0, 64⟩, ⟨0, 0, 64, 64⟩⟩],
    colors := some [grayColor, grayColor],
    info := some initInfo,
    is_connected := true,
    streaming := false }

/-- The single packet that streaming `demoSession` with `packet_size = 2`
emits. -/
def demoPacket : Packet :=
  { packet_id := 1,
    points := [⟨⟨0, 0, 0, 0⟩, ⟨0, 0, 0, 0⟩, ⟨0, 0, 0, 0⟩⟩,
               ⟨⟨0, 0, 128, 63⟩, ⟨0, 0, 0, 64⟩, ⟨0, 0, 64, 64⟩⟩],
    colors := some [grayColor, grayColor],
    raw_bytes := [0, 0, 0, 0, 0, 0, 0, 0, 0, 0, 0, 0, 127, 127, 127,
                  0, 0, 128, 63, 0, 0, 0, 64, 0, 0, 64, 64, 127, 127, 127],
    progress := 100,
    description := "Hardware Packet #1: 2 points" }

/-- A minimal loadable file: just the magic line and the terminator. -/
def tinyPlyContent : List Nat :=
  strBytes "ply" ++ [10] ++ strBytes "end_header" ++ [10]

/-- The session state after loading `tinyPlyContent` into a fresh session. -/
def tinyLoadedState : SimState :=
  { initState with
    points := some [],
    colors := some [],
    info := some initInfo,
    current_ply_file := some (strBytes "e.ply") }

/-- A canonical binary file declaring 1 colored vertex whose record is cut
after the 12 position bytes and only 2 of the 3 color bytes. -/
def shortColorContent : List Nat :=
  mkBinFile 1 true (List.replicate 12 0 ++ [7, 7])

/-- The session state after loading `shortColorContent` into a fresh session:
the header declares colors, yet the record lacking color data carries the
default gray entry. -/
def shortColorLoadedState : SimState :=
  { initState with
    points := some [⟨⟨0, 0, 0, 0⟩, ⟨0, 0, 0, 0⟩, ⟨0, 0, 0, 0⟩⟩],
    colors := some [grayColor],
    info := some (canonInfo 1 true),
    current_ply_file := some (strBytes "s.ply") }

/-! ## Lemmas: byte-string primitives -/

/-- `readLine` splits off everything up to the first newline byte. -/
theorem readLine_append (l rest : List Nat) (h : (10 : Nat) ∉ l) :
    readLine (l ++ 10 :: rest) = (l ++ [10], rest) := by
  induction l with
  | nil => simp [readLine]
  | cons b t ih =>
    have hb : b ≠ 10 := fun hb => h (hb ▸ List.mem_cons_self b t)
    have ht : (10 : Nat) ∉ t := fun hm => h (List.mem_cons_of_mem b hm)
    simp [readLine, hb, ih ht]

/-- `readLine` consumes at least one byte of a nonempty input. -/
theorem readLine_snd_length : ∀ b (bs : List Nat),
    (readLine (b :: bs)).2.length ≤ bs.length := by
  intro b bs
  induction bs generalizing b with
  | nil => by_cases hb : b = 10 <;> simp [readLine, hb]
  | cons c t ih =>
    by_cases hb : b = 10
    · simp [readLine, hb]
    · simpa [readLine, hb] using Nat.le_trans (ih c) (Nat.le_succ _)

/-- Stripping a newline-terminated line whose content neither starts nor ends
with whitespace returns the content. -/
theorem pyStrip_line (m : List Nat) (hne : m ≠ [])
    (hhead : wsByte (m.head hne) = false) (hlast : wsByte (m.getLast hne) = false) :
    pyStrip (m ++ [10]) = m := by
  obtain ⟨a, t, rfl⟩ := List.exists_cons_of_ne_nil hne
  have hws10 : wsByte 10 = true := by decide
  have hhead' : wsByte a = false := hhead
  have hrev : (a :: t).reverse = (a :: t).getLast hne :: ((a :: t).dropLast).reverse := by
    conv_lhs => rw [← List.dropLast_append_getLast hne]
    simp
  have h3 : ((a :: t).reverse).dropWhile wsByte = (a :: t).reverse := by
    rw [hrev, List.dropWhile_cons]
    simp [hlast]
  have hrev2 : (a :: (t ++ [10])).reverse = 10 :: (a :: t).reverse := by
    simp
  unfold pyStrip
  rw [List.cons_append, List.dropWhile_cons]
  simp only [hhead', Bool.false_eq_true, if_false]
  rw [hrev2, List.dropWhile_cons]
  simp only [hws10, if_true]
  rw [h3, List.reverse_reverse]

/-- Splitting a whitespace-free nonempty suffix extends the pending token. -/
theorem pySplitAux_nonws (t acc : List Nat) (h : ∀ b ∈ t, wsByte b = false) :
    pySplitAux t acc =
      if acc = [] ∧ t = [] then [] else [acc.reverse ++ t] := by
  induction t generalizing acc with
  | nil =>
    by_cases hacc : acc = [] <;> simp [pySplitAux, hacc]
  | cons b bs ih =>
    have hb : wsByte b = false := h b (List.mem_cons_self b bs)
    have hbs : ∀ x ∈ bs, wsByte x = false := fun x hx => h x (List.mem_cons_of_mem b hx)
    simp only [pySplitAux, hb, Bool.false_eq_true, if_false]
    rw [ih (b :: acc) hbs]
    simp

/-- A whitespace-free nonempty byte string is a single token. -/
theorem pySplit_single (t : List Nat) (hne : t ≠ []) (h : ∀ b ∈ t, wsByte b = false) :
    pySplit t = [t] := by
  unfold pySplit
  rw [pySplitAux_nonws t [] h]
  simp [hne]

/-! ## Lemmas: decimal numerals -/

/-- Folding another digit onto a decimal value. -/
theorem decVal_append (l : List Nat) (d : Nat) :
    decVal (l ++ [d]) = decVal l * 10 + (d - 48) := by
  unfold decVal
  rw [List.foldl_append]
  rfl

/-- With enough fuel, the decimal rendering is a nonempty digit string whose
value is the rendered number. -/
theorem natToDecAux_spec : ∀ f n, n ≤ f →
    natToDecAux f n ≠ [] ∧ (∀ b ∈ natToDecAux f n, digitByte b = true) ∧
      decVal (natToDecAux f n) = n := by
  intro f
  induction f with
  | zero =>
    intro n hn
    interval_cases n
    refine ⟨by simp [natToDecAux], ?_, by simp [natToDecAux, decVal]⟩
    intro b hb
    simp [natToDecAux] at hb
    simp [hb, digitByte]
  | succ f ih =>
    intro n hn
    by_cases h10 : n < 10
    · refine ⟨by simp [natToDecAux, h10], ?_, ?_⟩
      · intro b hb
        simp [natToDecAux, h10] at hb
        subst hb
        simp [digitByte]
        omega
      · simp [natToDecAux, h10, decVal]
    · have hdiv : n / 10 ≤ f := by omega
      obtain ⟨hne, hdig, hval⟩ := ih (n / 10) hdiv
      refine ⟨by simp [natToDecAux, h10], ?_, ?_⟩
      · intro b hb
        simp only [natToDecAux, h10, if_false, List.mem_append, List.mem_singleton] at hb
        rcases hb with hb | hb
        · exact hdig b hb
        · subst hb
          simp [digitByte]
          omega
      · simp only [natToDecAux, h10, if_false]
        rw [decVal_append, hval]
        omega

/-- The rendering is nonempty. -/
theorem natToDec_ne_nil (n : Nat) : natToDec n ≠ [] :=
  (natToDecAux_spec n n le_rfl).1

/-- All bytes of the rendering are digits. -/
theorem natToDec_digits (n : Nat) : ∀ b ∈ natToDec n, digitByte b = true :=
  (natToDecAux_spec n n le_rfl).2.1

/-- The value of the rendering. -/
theorem decVal_natToDec (n : Nat) : decVal (natToDec n) = n :=
  (natToDecAux_spec n n le_rfl).2.2

/-- Digit bytes are neither whitespace nor newline nor sign characters. -/
theorem digitByte_props (b : Nat) (h : digitByte b = true) :
    wsByte b = false ∧ b ≠ 10 ∧ b ≠ 43 ∧ b ≠ 45 := by
  simp [digitByte] at h
  refine ⟨?_, by omega, by omega, by omega⟩
  simp [wsByte]
  omega

/-- Python's `int()` inverts the f-string rendering. -/
theorem pyIntDec_natToDec (n : Nat) : pyIntDec (natToDec n) = some (n : Int) := by
  have hne := natToDec_ne_nil n
  have hdig := natToDec_digits n
  obtain ⟨b, rest, heq⟩ := List.exists_cons_of_ne_nil hne
  have hb : digitByte b = true := hdig b (by rw [heq]; exact List.mem_cons_self b rest)
  obtain ⟨-, -, hb43, hb45⟩ := digitByte_props b hb
  have hall : (b :: rest).all digitByte = true := by
    rw [List.all_eq_true]
    intro x hx
    exact hdig x (by rw [heq]; exact hx)
  rw [heq]
  unfold pyIntDec
  simp only [hb43, hb45, if_false, hall, if_true]
  rw [← heq, decVal_natToDec]

/-! ## Lemmas: header-loop fuel stability -/

/-- One extra unit of fuel changes nothing once the byte count suffices. -/
theorem parseHeaderAux_succ : ∀ f (bs : List Nat) info, bs.length ≤ f →
    parseHeaderAux (f + 1) bs info = parseHeaderAux f bs info := by
  intro f
  induction f with
  | zero =>
    intro bs info h
    have hbs : bs = [] := List.length_eq_zero.mp (Nat.le_zero.mp h)
    subst hbs
    rfl
  | succ f ih =>
    intro bs info h
    cases bs with
    | nil => rfl
    | cons b bs' =>
      have hlen : (readLine (b :: bs')).2.length ≤ f :=
        le_trans (readLine_snd_length b bs') (by simpa using h)
      simp only [parseHeaderAux]
      by_cases hend : pyStrip (readLine (b :: bs')).1 = endHeaderTok
      · simp [hend]
      · simp only [hend, if_false]
        cases hd : headerDispatch (pySplit (pyStrip (readLine (b :: bs')).1)) info with
        | none => rfl
        | some info2 => exact ih _ info2 hlen

/-- Any extra fuel changes nothing once the byte count suffices. -/
theorem parseHeaderAux_add (d : Nat) : ∀ f (bs : List Nat) info, bs.length ≤ f →
    parseHeaderAux (f + d) bs info = parseHeaderAux f bs info := by
  induction d with
  | zero => intro f bs info _; rfl
  | succ d ih =>
    intro f bs info h
    have h1 : bs.length ≤ f + d := le_trans h (Nat.le_add_right f d)
    calc parseHeaderAux (f + (d + 1)) bs info
        = parseHeaderAux ((f + d) + 1) bs info := by ring_nf
      _ = parseHeaderAux (f + d) bs info := parseHeaderAux_succ (f + d) bs info h1
      _ = parseHeaderAux f bs info := ih f bs info h

/-- With sufficient fuel the loop computes `parseHeader`. -/
theorem parseHeaderAux_eq_parseHeader (f : Nat) (bs : List Nat) (info)
    (h : bs.length ≤ f) : parseHeaderAux f bs info = parseHeader bs info := by
  unfold parseHeader
  have : f = bs.length + (f - bs.length) := by omega
  rw [this, parseHeaderAux_add (f - bs.length) bs.length bs info le_rfl]

/-- Processing one non-terminator header line. -/
theorem parseHeader_step (l rest : List Nat) (info : PlyInfo)
    (h10 : (10 : Nat) ∉ l) (hne : pyStrip (l ++ [10]) ≠ endHeaderTok) :
    parseHeader (l ++ 10 :: rest) info =
      match headerDispatch (pySplit (pyStrip (l ++ [10]))) info with
      | none => none
      | some i2 => parseHeader rest i2 := by
  cases l with
  | nil =>
    unfold parseHeader
    simp only [List.nil_append, List.length_cons, parseHeaderAux]
    have hr : readLine (10 :: rest) = ([10], rest) := by simp [readLine]
    rw [hr]
    have hs : pyStrip [10] = [] := by decide
    rw [hs]
    have hne2 : ([] : List Nat) ≠ endHeaderTok := by decide
    simp only [hne2, if_false]
  | cons a t =>
    unfold parseHeader
    rw [List.cons_append]
    simp only [List.length_cons, parseHeaderAux]
    rw [show a :: (t ++ 10 :: rest) = (a :: t) ++ 10 :: rest from rfl]
    rw [readLine_append (a :: t) rest h10]
    simp only [hne, if_false]
    cases hd : headerDispatch (pySplit (pyStrip ((a :: t) ++ [10]))) info with
    | none => rfl
    | some i2 =>
      have hlen : rest.length ≤ (t ++ 10 :: rest).length := by
        simp [List.length_append]
        omega
      exact parseHeaderAux_eq_parseHeader _ rest i2 hlen

/-- Processing the terminator line. -/
theorem parseHeader_end (l rest : List Nat) (info : PlyInfo)
    (h10 : (10 : Nat) ∉ l) (heq : pyStrip (l ++ [10]) = endHeaderTok) :
    parseHeader (l ++ 10 :: rest) info = some (info, rest) := by
  cases l with
  | nil => exact absurd heq (by decide)
  | cons a t =>
    unfold parseHeader
    rw [List.cons_append]
    simp only [List.length_cons, parseHeaderAux]
    rw [show a :: (t ++ 10 :: rest) = (a :: t) ++ 10 :: rest from rfl]
    rw [readLine_append (a :: t) rest h10]
    simp only [heq, if_true]

/-- Folding a terminated block of non-terminator lines. -/
theorem parseHeader_mkLines (ls : List (List Nat)) (body : List Nat) (info : PlyInfo)
    (h10 : ∀ l ∈ ls, (10 : Nat) ∉ l)
    (hnend : ∀ l ∈ ls, pyStrip (l ++ [10]) ≠ endHeaderTok) :
    parseHeader (mkLines ls ++ (strBytes "end_header" ++ 10 :: body)) info =
      match foldDispatch ls info with
      | none => none
      | some i2 => some (i2, body) := by
  induction ls generalizing info with
  | nil =>
    simp only [mkLines, List.flatMap_nil, List.nil_append, foldDispatch]
    exact parseHeader_end (strBytes "end_header") body info (by decide) (by decide)
  | cons l ls ih =>
    have hl10 : (10 : Nat) ∉ l := h10 l (List.mem_cons_self l ls)
    have hlne : pyStrip (l ++ [10]) ≠ endHeaderTok := hnend l (List.mem_cons_self l ls)
    have hrec : mkLines (l :: ls) ++ (strBytes "end_header" ++ 10 :: body) =
        l ++ 10 :: (mkLines ls ++ (strBytes "end_header" ++ 10 :: body)) := by
      simp [mkLines]
    rw [hrec, parseHeader_step _ _ info hl10 hlne]
    simp only [foldDispatch]
    cases hd : headerDispatch (pySplit (pyStrip (l ++ [10]))) info with
    | none => rfl
    | some i2 =>
      exact ih i2 (fun x hx => h10 x (List.mem_cons_of_mem l hx))
        (fun x hx => hnend x (List.mem_cons_of_mem l hx))

/-! ## Lemmas: dispatching the canonical header lines -/

theorem dispatch_format_line (i : PlyInfo) :
    headerDispatch (pySplit (pyStrip (strBytes "format binary_little_endian 1.0" ++ [10]))) i
      = some { i with format_type := strBytes "binary_little_endian" } := rfl

theorem dispatch_prop_x_line (i : PlyInfo) :
    headerDispatch (pySplit (pyStrip (strBytes "property float x" ++ [10]))) i
      = some { i with
               properties := i.properties ++ [(strBytes "float", strBytes "x")],
               has_color := i.has_color || false } := rfl

theorem dispatch_prop_y_line (i : PlyInfo) :
    headerDispatch (pySplit (pyStrip (strBytes "property float y" ++ [10]))) i
      = some { i with
               properties := i.properties ++ [(strBytes "float", strBytes "y")],
               has_color := i.has_color || false } := rfl

theorem dispatch_prop_z_line (i : PlyInfo) :
    headerDispatch (pySplit (pyStrip (strBytes "property float z" ++ [10]))) i
      = some { i with
               properties := i.properties ++ [(strBytes "float", strBytes "z")],
               has_color := i.has_color || false } := rfl

theorem dispatch_prop_red_line (i : PlyInfo) :
    headerDispatch (pySplit (pyStrip (strBytes "property uchar red" ++ [10]))) i
      = some { i with
               properties := i.properties ++ [(strBytes "uchar", strBytes "red")],
               has_color := i.has_color || true } := rfl

theorem dispatch_prop_green_line (i : PlyInfo) :
    headerDispatch (pySplit (pyStrip (strBytes "property uchar green" ++ [10]))) i
      = some { i with
               properties := i.properties ++ [(strBytes "uchar", strBytes "green")],
               has_color := i.has_color || true } := rfl

theorem dispatch_prop_blue_line (i : PlyInfo) :
    headerDispatch (pySplit (pyStrip (strBytes "property uchar blue" ++ [10]))) i
      = some { i with
               properties := i.properties ++ [(strBytes "uchar", strBytes "blue")],
               has_color := i.has_color || true } := rfl

/-- Stripping the `element vertex <n>` line. -/
theorem pyStrip_elemLine (n : Nat) :
    pyStrip ((strBytes "element vertex " ++ natToDec n) ++ [10])
      = strBytes "element vertex " ++ natToDec n := by
  have hd := natToDec_ne_nil n
  have hne : strBytes "element vertex " ++ natToDec n ≠ [] := by
    simp [strBytes]
  refine pyStrip_line _ hne ?_ ?_
  · rfl
  · have hgl : (strBytes "element vertex " ++ natToDec n).getLast hne
        = (natToDec n).getLast hd := List.getLast_append' _ _ hd
    rw [hgl]
    exact (digitByte_props _ (natToDec_digits n _ (List.getLast_mem hd))).1

/-- Tokenizing the `element vertex <n>` line. -/
theorem pySplit_elemLine (n : Nat) :
    pySplit (strBytes "element vertex " ++ natToDec n)
      = [strBytes "element", strBytes "vertex", natToDec n] := by
  have h1 : pySplit (strBytes "element vertex " ++ natToDec n)
      = strBytes "element" :: strBytes "vertex" :: pySplitAux (natToDec n) [] := rfl
  rw [h1, pySplitAux_nonws _ _ (fun b hb => (digitByte_props b (natToDec_digits n b hb)).1)]
  simp [natToDec_ne_nil n]

/-- Dispatching the `element vertex <n>` line sets the point count. -/
theorem dispatch_elemLine (n : Nat) (i : PlyInfo) :
    headerDispatch (pySplit (pyStrip ((strBytes "element vertex " ++ natToDec n) ++ [10]))) i
      = some { i with num_points := (n : Int) } := by
  rw [pyStrip_elemLine, pySplit_elemLine]
  simp only [headerDispatch]
  rw [if_neg (by decide), if_pos (by decide), if_pos (by decide)]
  simp [pyIntDec_natToDec]

/-- The canonical header lines fold to the canonical `info`. -/
theorem foldDispatch_canon (n : Nat) (hc : Bool) :
    foldDispatch (canonLines n hc) initInfo = some (canonInfo n hc) := by
  cases hc
  · simp only [canonLines, Bool.false_eq_true, if_false, List.append_nil, foldDispatch,
      dispatch_format_line, dispatch_elemLine, dispatch_prop_x_line, dispatch_prop_y_line,
      dispatch_prop_z_line]
    simp [canonInfo, initInfo]
  · simp only [canonLines, if_true, List.cons_append, List.nil_append, foldDispatch,
      dispatch_format_line, dispatch_elemLine, dispatch_prop_x_line, dispatch_prop_y_line,
      dispatch_prop_z_line, dispatch_prop_red_line, dispatch_prop_green_line,
      dispatch_prop_blue_line]
    simp [canonInfo, initInfo]

/-- The `element vertex <n>` line contains no newline byte. -/
theorem elemLine_no_nl (n : Nat) : (10 : Nat) ∉ strBytes "element vertex " ++ natToDec n := by
  intro hmem
  rcases List.mem_append.mp hmem with h | h
  · revert h; decide
  · exact (digitByte_props 10 (natToDec_digits n 10 h)).2.1 rfl

/-- The `element vertex <n>` line is not the terminator. -/
theorem elemLine_ne_end (n : Nat) :
    pyStrip ((strBytes "element vertex " ++ natToDec n) ++ [10]) ≠ endHeaderTok := by
  rw [pyStrip_elemLine]
  intro heq
  have hlen := congrArg List.length heq
  simp [strBytes, endHeaderTok, List.length_append] at hlen

/-- Parsing the canonical header yields the canonical `info` and leaves the
body untouched. -/
theorem parseHeader_canon (n : Nat) (hc : Bool) (body : List Nat) :
    parseHeader (canonHeaderRest n hc ++ body) initInfo = some (canonInfo n hc, body) := by
  have hsplit : canonHeaderRest n hc ++ body
      = mkLines (canonLines n hc) ++ (strBytes "end_header" ++ 10 :: body) := by
    cases hc <;>
      simp [canonHeaderRest, canonLines, mkLines, xyzPropLines, rgbPropLines, List.append_assoc]
  have h10 : ∀ l ∈ canonLines n hc, (10 : Nat) ∉ l := by
    intro l hl
    cases hc <;> simp only [canonLines, if_true, if_false, Bool.false_eq_true,
      List.append_nil, List.cons_append, List.nil_append, List.mem_cons,
      List.not_mem_nil, or_false] at hl
    · rcases hl with rfl | rfl | rfl | rfl | rfl
      · decide
      · exact elemLine_no_nl n
      · decide
      · decide
      · decide
    · rcases hl with rfl | rfl | rfl | rfl | rfl | rfl | rfl | rfl
      · decide
      · exact elemLine_no_nl n
      · decide
      · decide
      · decide
      · decide
      · decide
      · decide
  have hnend : ∀ l ∈ canonLines n hc, pyStrip (l ++ [10]) ≠ endHeaderTok := by
    intro l hl
    cases hc <;> simp only [canonLines, if_true, if_false, Bool.false_eq_true,
      List.append_nil, List.cons_append, List.nil_append, List.mem_cons,
      List.not_mem_nil, or_false] at hl
    · rcases hl with rfl | rfl | rfl | rfl | rfl
      · decide
      · exact elemLine_ne_end n
      · decide
      · decide
      · decide
    · rcases hl with rfl | rfl | rfl | rfl | rfl | rfl | rfl | rfl
      · decide
      · exact elemLine_ne_end n
      · decide
      · decide
      · decide
      · decide
      · decide
      · decide
  rw [hsplit, parseHeader_mkLines _ _ _ h10 hnend, foldDispatch_canon]

/-- Loading a canonical binary file: the magic and header succeed, and the
body is read by the binary branch with the declared count. -/
theorem loadPLY_canon (pyFloat : List Nat → Option F32) (n : Nat) (hc : Bool)
    (body : List Nat) :
    loadPLYContent pyFloat (mkBinFile n hc body)
      = some ((readBinPoints hc n body).1, (readBinPoints hc n body).2, canonInfo n hc) := by
  unfold loadPLYContent mkBinFile
  rw [show strBytes "ply" ++ [10] ++ canonHeaderRest n hc ++ body
      = strBytes "ply" ++ 10 :: (canonHeaderRest n hc ++ body) by simp]
  rw [readLine_append _ _ (by decide)]
  dsimp only
  rw [show pyStrip (strBytes "ply" ++ [10]) = plyTok from by decide]
  simp only [ne_eq, not_true_eq_false, if_false]
  rw [parseHeader_canon]
  simp only [canonInfo]
  rw [if_neg (by decide)]
  simp [Int.toNat_natCast]

/-! ## Lemmas: body reading -/

/-- An exhausted byte stream yields nothing, whatever the remaining count. -/
theorem readBinPoints_nil (hc : Bool) : ∀ n, readBinPoints hc n [] = ([], []) := by
  intro n
  induction n with
  | zero => rfl
  | succ n ih => simpa [readBinPoints] using ih

/-- Reading one complete record parses its position and color exactly. -/
theorem readBinPoints_cons_full (hc : Bool) (n : Nat) (p : Point3) (cb : Nat × Nat × Nat)
    (tail : List Nat) :
    readBinPoints hc (n + 1) (encRec hc p cb ++ tail)
      = (p :: (readBinPoints hc n tail).1,
         (if hc then normColor cb.1 cb.2.1 cb.2.2 else grayColor)
           :: (readBinPoints hc n tail).2) := by
  obtain ⟨r, g, b⟩ := cb
  obtain ⟨⟨a0, a1, a2, a3⟩, ⟨a4, a5, a6, a7⟩, ⟨a8, a9, a10, a11⟩⟩ := p
  cases hc <;> rfl

/-- A body of complete records parses to exactly those records, regardless of
how many further points (`m`) the header declared. -/
theorem readBinPoints_complete (hc : Bool) (recs : List (Point3 × (Nat × Nat × Nat))) :
    ∀ m, readBinPoints hc (recs.length + m) (recs.flatMap fun pc => encRec hc pc.1 pc.2)
      = (recs.map Prod.fst,
         recs.map fun pc =>
           if hc then normColor pc.2.1 pc.2.2.1 pc.2.2.2 else grayColor) := by
  induction recs with
  | nil =>
    intro m
    simp [readBinPoints_nil]
  | cons pc recs ih =>
    intro m
    have hlen : (pc :: recs).length + m = (recs.length + m) + 1 := by
      simp [List.length_cons]
      omega
    rw [hlen, List.flatMap_cons, readBinPoints_cons_full, ih m]
    simp

/-- Structural invariants of the binary body reader: colors and points stay
parallel, and without declared colors every color is the gray default. -/
theorem readBinPoints_inv (hc : Bool) : ∀ n (bs : List Nat),
    (readBinPoints hc n bs).2.length = (readBinPoints hc n bs).1.length ∧
      (hc = false → ∀ c ∈ (readBinPoints hc n bs).2, c = grayColor) := by
  intro n
  induction n with
  | zero => intro bs; simp [readBinPoints]
  | succ n ih =>
    intro bs
    simp only [readBinPoints]
    by_cases h12 : (bs.take 12).length = 12
    · simp only [h12, if_true]
      cases hc
      · have := ih (bs.drop 12)
        simp only [Bool.false_eq_true, if_false]
        refine ⟨by simp [this.1], ?_⟩
        intro _ c hc2
        simp only [List.mem_cons] at hc2
        rcases hc2 with rfl | hc2
        · rfl
        · exact this.2 rfl c hc2
      · have h2 := ih ((bs.drop 12).drop 3)
        rw [List.drop_drop] at h2
        norm_num at h2
        simp only [if_true]
        exact ⟨by simp [h2], by intro h; cases h⟩
    · simp only [h12, if_false]
      exact ih (bs.drop 12)

/-- Structural invariants of the ASCII body reader. -/
theorem readAsciiPoints_inv (pyFloat : List Nat → Option F32) (hc : Bool) :
    ∀ n (bs : List Nat) pr, readAsciiPoints pyFloat hc n bs = some pr →
      pr.2.length = pr.1.length ∧ (hc = false → ∀ c ∈ pr.2, c = grayColor) := by
  intro n
  induction n with
  | zero =>
    intro bs pr h
    simp only [readAsciiPoints, Option.some.injEq] at h
    subst h
    simp
  | succ n ih =>
    intro bs pr h
    simp only [readAsciiPoints] at h
    split at h
    case h_2 => cases h
    case h_1 t0 t1 t2 heq0 =>
      split at h
      case h_2 => cases h
      case h_1 x y z heq1 =>
        split at h
        case h_1 => cases h
        case h_2 c heqc =>
          rw [Option.map_eq_some'] at h
          obtain ⟨pr', hpr', rfl⟩ := h
          obtain ⟨ih1, ih2⟩ := ih _ pr' hpr'
          constructor
          · simp [ih1]
          · intro hfalse cc hcc
            simp only [List.mem_cons] at hcc
            rcases hcc with rfl | hcc
            · -- the produced color in the no-color case is gray
              subst hfalse
              simp only [Bool.false_eq_true, false_and, if_false,
                Option.some.injEq] at heqc
              exact heqc.symm
            · exact ih2 hfalse cc hcc

/-- Binary reader, record lacking color data (lines 103–111): the position
bytes parse but fewer than 3 color bytes remain, so the point is kept with
the default gray color even though the header declared colors. -/
theorem readBinPoints_short_color (n : Nat) (bs : List Nat)
    (h12 : (bs.take 12).length = 12) (hcd : ((bs.drop 12).take 3).length ≠ 3) :
    readBinPoints true (n + 1) bs
      = (unpack3f (bs.take 12) :: (readBinPoints true n ((bs.drop 12).drop 3)).1,
         grayColor :: (readBinPoints true n ((bs.drop 12).drop 3)).2) := by
  simp only [readBinPoints, h12, if_true, dif_neg hcd]

/-- ASCII reader, line lacking color tokens (lines 85–94): a line with fewer
than 6 whitespace-separated tokens never reaches the color parse, so a
record successfully parsed from it carries the default gray color even
though the header declared colors. -/
theorem readAsciiPoints_short_color (pyFloat : List Nat → Option F32) (n : Nat)
    (bs : List Nat) (pr : List Point3 × List Color3)
    (h : readAsciiPoints pyFloat true (n + 1) bs = some pr)
    (hlt : (pySplit (pyStrip (readLine bs).1)).length < 6) :
    ∃ p tl, readAsciiPoints pyFloat true n (readLine bs).2 = some tl
      ∧ pr = (p :: tl.1, grayColor :: tl.2) := by
  simp only [readAsciiPoints] at h
  split at h
  case h_2 => cases h
  case h_1 t0 t1 t2 heq0 =>
    split at h
    case h_2 => cases h
    case h_1 =>
      have hcond : ¬(True ∧ 6 ≤ (pySplit (pyStrip (readLine bs).1)).length) := by
        rintro ⟨-, h6⟩; omega
      rw [if_neg hcond] at h
      dsimp only at h
      rw [Option.map_eq_some'] at h
      obtain ⟨tl, htl, rfl⟩ := h
      exact ⟨_, tl, htl, rfl⟩

/-! ## Lemmas: invariants of a successful load -/

/-- Any successful parse keeps colors parallel to points, and a header that
declared no color property yields only the gray default. -/
theorem loadPLYContent_inv (pyFloat : List Nat → Option F32) (content : List Nat)
    (ps : List Point3) (cs : List Color3) (info : PlyInfo)
    (h : loadPLYContent pyFloat content = some (ps, cs, info)) :
    cs.length = ps.length ∧ (info.has_color = false → ∀ c ∈ cs, c = grayColor) := by
  unfold loadPLYContent at h
  by_cases hm : pyStrip (readLine content).1 ≠ plyTok
  · simp [hm] at h
  · simp only [hm, if_false] at h
    cases hph : parseHeader (readLine content).2 initInfo with
    | none => rw [hph] at h; cases h
    | some t =>
      obtain ⟨info2, body⟩ := t
      rw [hph] at h
      dsimp only at h
      by_cases hfmt : info2.format_type = asciiTok
      · simp only [hfmt, if_true] at h
        rw [Option.map_eq_some'] at h
        obtain ⟨pr, hpr, heq⟩ := h
        obtain ⟨h1, h2, h3⟩ : pr.1 = ps ∧ pr.2 = cs ∧ info2 = info := by
          injection heq with e1 e2
          injection e2 with e3 e4
          exact ⟨e1, e3, e4⟩
        subst h1; subst h2; subst h3
        exact readAsciiPoints_inv pyFloat info2.has_color _ body _ hpr
      · simp only [hfmt, if_false, Option.some.injEq] at h
        obtain ⟨h1, h2, h3⟩ : (readBinPoints info2.has_color info2.num_points.toNat body).1 = ps
            ∧ (readBinPoints info2.has_color info2.num_points.toNat body).2 = cs
            ∧ info2 = info := by
          injection h with e1 e2
          injection e2 with e3 e4
          exact ⟨e1, e3, e4⟩
        subst h1; subst h2; subst h3
        exact readBinPoints_inv info2.has_color info2.num_points.toNat body

/-! ## Lemmas: the two outcomes of `load_ply_file` on an existing file -/

theorem load_ply_file_of_some (pyFloat : List Nat → Option F32) (content : List Nat)
    (fname : List Nat) (s : SimState) (ps : List Point3) (cs : List Color3) (info : PlyInfo)
    (h : loadPLYContent pyFloat content = some (ps, cs, info)) :
    load_ply_file pyFloat (some content) fname s =
      (true,
       { s with
         points := some ps,
         colors := some cs,
         info := some info,
         current_ply_file := some fname }) := by
  unfold load_ply_file
  dsimp only
  rw [h]

theorem load_ply_file_of_none (pyFloat : List Nat → Option F32) (content : List Nat)
    (fname : List Nat) (s : SimState)
    (h : loadPLYContent pyFloat content = none) :
    load_ply_file pyFloat (some content) fname s = (false, s) := by
  unfold load_ply_file
  dsimp only
  rw [h]

/-! ## The claims -/

/-- C2: for every binary file with a valid magic line and a canonical header
declaring `N` vertices whose body is cut short after exactly `K` complete
point records (`K < N`), the reader succeeds and produces a PointSet of
exactly `K` points. -/
theorem claim_C2_truncation (pyFloat : List Nat → Option F32) (N : Nat) (hc : Bool)
    (recs : List (Point3 × (Nat × Nat × Nat))) (fname : List Nat) (s : SimState)
    (hKN : recs.length < N) :
    ∃ pts s',
      load_ply_file pyFloat
          (some (mkBinFile N hc (recs.flatMap fun pc => encRec hc pc.1 pc.2))) fname s
        = (true, s')
      ∧ s'.points = some pts ∧ pts.length = recs.length := by
  have hm : N = recs.length + (N - recs.length) := by omega
  rw [load_ply_file_of_some pyFloat _ fname s _ _ _ (loadPLY_canon pyFloat N hc _)]
  refine ⟨(readBinPoints hc N (recs.flatMap fun pc => encRec hc pc.1 pc.2)).1, _,
    rfl, rfl, ?_⟩
  conv_lhs => rw [hm, readBinPoints_complete]
  simp

/-- C4: a file whose first line does not strip to the exact magic token makes
the load fail, leaving the whole session state (hence any previously loaded
data) untouched. -/
theorem claim_C4_bad_magic (pyFloat : List Nat → Option F32) (content : List Nat)
    (fname : List Nat) (s : SimState)
    (hmagic : pyStrip (readLine content).1 ≠ plyTok) :
    load_ply_file pyFloat (some content) fname s = (false, s) := by
  apply load_ply_file_of_none
  unfold loadPLYContent
  simp [hmagic]

/-- C10: every failing load (missing file, bad magic, or any parse error)
returns `False` and leaves the session state exactly as it was: the new
fields are assigned only after the entire parse has succeeded. -/
theorem claim_C10_load_atomic (pyFloat : List Nat → Option F32)
    (content? : Option (List Nat)) (fname : List Nat) (s : SimState)
    (hfail : (load_ply_file pyFloat content? fname s).1 = false) :
    (load_ply_file pyFloat content? fname s).2 = s := by
  cases content? with
  | none => rfl
  | some content =>
    cases h : loadPLYContent pyFloat content with
    | none => rw [load_ply_file_of_none pyFloat content fname s h]
    | some t =>
      obtain ⟨ps, cs, info⟩ := t
      rw [load_ply_file_of_some pyFloat content fname s ps cs info h] at hfail
      cases hfail

/-- C9: after every successful load the colors sequence has exactly the
length of the points sequence, and when the header declared no red/green/blue
property every color entry is the default gray `(0.5, 0.5, 0.5)`; moreover a
record that lacks color data gets the default gray entry even when the header
did declare colors: at any point of the binary body loop, a record whose 3
color bytes run short keeps its point with the gray entry, and at any point
of the ASCII body loop a successfully parsed line with fewer than 6 tokens
carries the gray entry. -/
theorem claim_C9_colors_parallel (pyFloat : List Nat → Option F32)
    (content? : Option (List Nat)) (fname : List Nat) (s s2 : SimState)
    (h : load_ply_file pyFloat content? fname s = (true, s2)) :
    (∃ pts cols, s2.points = some pts ∧ s2.colors = some cols
      ∧ cols.length = pts.length
      ∧ ∀ info, s2.info = some info → info.has_color = false →
          ∀ c ∈ cols, c = grayColor)
    ∧ (∀ n (bs : List Nat), (bs.take 12).length = 12 →
        ((bs.drop 12).take 3).length ≠ 3 →
        readBinPoints true (n + 1) bs
          = (unpack3f (bs.take 12) :: (readBinPoints true n ((bs.drop 12).drop 3)).1,
             grayColor :: (readBinPoints true n ((bs.drop 12).drop 3)).2))
    ∧ (∀ n (bs : List Nat) pr, readAsciiPoints pyFloat true (n + 1) bs = some pr →
        (pySplit (pyStrip (readLine bs).1)).length < 6 →
        ∃ p tl, readAsciiPoints pyFloat true n (readLine bs).2 = some tl
          ∧ pr = (p :: tl.1, grayColor :: tl.2)) := by
  refine ⟨?_, fun n bs h12 hcd => readBinPoints_short_color n bs h12 hcd,
    fun n bs pr hp hlt => readAsciiPoints_short_color pyFloat n bs pr hp hlt⟩
  cases content? with
  | none =>
    exact absurd (congrArg Prod.fst h) (by simp [load_ply_file])
  | some content =>
    cases hl : loadPLYContent pyFloat content with
    | none =>
      rw [load_ply_file_of_none pyFloat content fname s hl] at h
      exact absurd (congrArg Prod.fst h) (by simp)
    | some t =>
      obtain ⟨ps, cs, info⟩ := t
      rw [load_ply_file_of_some pyFloat content fname s ps cs info hl] at h
      have hs2 : ({ s with
          points := some ps,
          colors := some cs,
          info := some info,
          current_ply_file := some fname } : SimState) = s2 := congrArg Prod.snd h
      obtain ⟨hlen, hgray⟩ := loadPLYContent_inv pyFloat content ps cs info hl
      refine ⟨ps, cs, by rw [← hs2], by rw [← hs2], hlen, ?_⟩
      intro info2 hinfo2 hnc c hcmem
      rw [← hs2] at hinfo2
      have : info = info2 := by injection hinfo2
      exact hgray (this ▸ hnc) c hcmem


/-- C7 counterexample: `disconnect_hardware` does not reset the loaded file
or the loaded PointSet — from a fully loaded, connected, streaming state the
file and points survive the disconnect. -/
theorem claim_C7_counterexample :
    ¬ (((disconnect_hardware
          { current_ply_file := some (strBytes "scan.ply"),
            points := some [⟨⟨0, 0, 0, 0⟩, ⟨0, 0, 0, 0⟩, ⟨0, 0, 0, 0⟩⟩],
            colors := some [grayColor],
            info := some initInfo,
            is_connected := true,
            streaming := true }).current_ply_file = none)
        ∧ ((disconnect_hardware
          { current_ply_file := some (strBytes "scan.ply"),
            points := some [⟨⟨0, 0, 0, 0⟩, ⟨0, 0, 0, 0⟩, ⟨0, 0, 0, 0⟩⟩],
            colors := some [grayColor],
            info := some initInfo,
            is_connected := true,
            streaming := true }).points = none)) := by
  decide

/-- C7 (amended): after `disconnect_hardware` from any state, `connected` and
`streaming` are false, while the loaded file, points, colors and info are
retained unchanged. -/
theorem claim_C7_disconnect (s : SimState) :
    (disconnect_hardware s).is_connected = false
    ∧ (disconnect_hardware s).streaming = false
    ∧ (disconnect_hardware s).current_ply_file = s.current_ply_file
    ∧ (disconnect_hardware s).points = s.points
    ∧ (disconnect_hardware s).colors = s.colors
    ∧ (disconnect_hardware s).info = s.info :=
  ⟨rfl, rfl, rfl, rfl, rfl, rfl⟩

/-- C8: starting the stream while not connected fails (the generator's
`NotConnected` path): no packets are emitted, `streaming` is not set, and the
whole session state is returned unchanged. -/
theorem claim_C8_not_connected (s : SimState) (P : Nat) (stop : Nat → Bool)
    (h : s.is_connected = false) :
    start_data_stream s P stop = (.notConnected, [], s) := by
  unfold start_data_stream
  simp [h]

/-- C8 witness: the freshly constructed session is not connected and starting
it emits nothing and changes nothing. -/
theorem claim_C8_witness :
    initState.is_connected = false
    ∧ start_data_stream initState 7 (fun _ => false) = (.notConnected, [], initState) :=
  ⟨rfl, claim_C8_not_connected initState 7 (fun _ => false) rfl⟩

/-- The writer's output is a canonical binary file with colors whose body is
the record serialization of the zipped points and colors. -/
theorem create_test_ply_eq (pts : List Point3) (cols : List (Nat × Nat × Nat)) :
    create_test_ply_bytes pts cols
      = mkBinFile pts.length true ((pts.zip cols).flatMap fun pc => encRec true pc.1 pc.2) := by
  unfold create_test_ply_bytes mkBinFile testPlyHeader canonHeaderRest xyzPropLines rgbPropLines
  simp [encRec, List.append_assoc]

/-- C3: writing any PointSet with per-point byte colors using the binary
writer and reading the file back yields the same point count, bitwise-equal
positions, and colors equal to the originals (normalized) — in particular
within the claimed `1/255` quantization error. -/
theorem claim_C3_roundtrip (pyFloat : List Nat → Option F32) (pts : List Point3)
    (cols : List (Nat × Nat × Nat)) (hlen : cols.length = pts.length) :
    ∃ rpts rcols info,
      loadPLYContent pyFloat (create_test_ply_bytes pts cols) = some (rpts, rcols, info)
      ∧ rpts = pts
      ∧ rcols = cols.map (fun c => normColor c.1 c.2.1 c.2.2)
      ∧ rcols.length = pts.length
      ∧ ∀ i (hi : i < cols.length) (hi2 : i < rcols.length),
          |(rcols.get ⟨i, hi2⟩).r - ((cols.get ⟨i, hi⟩).1 : ℚ) / 255| ≤ 1 / 255
          ∧ |(rcols.get ⟨i, hi2⟩).g - ((cols.get ⟨i, hi⟩).2.1 : ℚ) / 255| ≤ 1 / 255
          ∧ |(rcols.get ⟨i, hi2⟩).b - ((cols.get ⟨i, hi⟩).2.2 : ℚ) / 255| ≤ 1 / 255 := by
  have hle : pts.length ≤ cols.length := le_of_eq hlen.symm
  have hle2 : cols.length ≤ pts.length := le_of_eq hlen
  have hcount : pts.length = (pts.zip cols).length + 0 := by
    rw [List.length_zip, hlen, min_self]
    omega
  have hread : readBinPoints true pts.length
        ((pts.zip cols).flatMap fun pc => encRec true pc.1 pc.2)
      = (pts, cols.map fun c => normColor c.1 c.2.1 c.2.2) := by
    conv_lhs => rw [hcount]
    rw [readBinPoints_complete]
    simp only [if_true, Prod.mk.injEq]
    constructor
    · exact List.map_fst_zip pts cols hle
    · rw [show (fun pc : Point3 × Nat × Nat × Nat => normColor pc.2.1 pc.2.2.1 pc.2.2.2)
          = (fun c : Nat × Nat × Nat => normColor c.1 c.2.1 c.2.2) ∘ Prod.snd from rfl]
      rw [← List.map_map]
      rw [List.map_snd_zip pts cols hle2]
  rw [create_test_ply_eq, loadPLY_canon, hread]
  refine ⟨pts, cols.map fun c => normColor c.1 c.2.1 c.2.2, canonInfo pts.length true,
    rfl, rfl, rfl, by simp [hlen], ?_⟩
  intro i hi hi2
  have hget : (cols.map fun c => normColor c.1 c.2.1 c.2.2).get ⟨i, hi2⟩
      = normColor (cols.get ⟨i, hi⟩).1 (cols.get ⟨i, hi⟩).2.1 (cols.get ⟨i, hi⟩).2.2 := by
    simp [List.get_eq_getElem, List.getElem_map]
  rw [hget]
  unfold normColor
  norm_num

/-! ## Lemmas: streaming -/

theorem packColorQ_ok (c : Color3) (h : colorInUnit c) :
    ∃ r g b, packColorQ c = some [r, g, b] := by
  obtain ⟨h1, h2, h3, h4, h5, h6⟩ := h
  have hb : ∀ q : ℚ, 0 ≤ q → q ≤ 1 → ∃ v, packUByte (truncQ (q * 255)) = some v := by
    intro q hq0 hq1
    have hq0' : (0 : ℚ) ≤ q * 255 := by positivity
    have hq1' : q * 255 ≤ 255 := by nlinarith
    have ht : truncQ (q * 255) = ⌊q * 255⌋ := by simp [truncQ, hq0']
    refine ⟨(⌊q * 255⌋).toNat, ?_⟩
    unfold packUByte
    rw [ht, if_pos]
    constructor
    · exact Int.floor_nonneg.mpr hq0'
    · calc ⌊q * 255⌋ ≤ ⌊(255 : ℚ)⌋ := Int.floor_le_floor hq1'
        _ = 255 := by norm_num
  obtain ⟨r, hr⟩ := hb c.r h1 h2
  obtain ⟨g, hg⟩ := hb c.g h3 h4
  obtain ⟨b, hbv⟩ := hb c.b h5 h6
  refine ⟨r, g, b, ?_⟩
  unfold packColorQ
  rw [hr, hg, hbv]

theorem wireColorBytes_ok (cols? : Option (List Color3))
    (hok : ∀ cs, cols? = some cs → ∀ c ∈ cs, colorInUnit c) (i : Nat) :
    ∃ cb, wireColorBytes cols? i = some cb ∧ cb.length = 3 := by
  cases cols? with
  | none => exact ⟨[128, 128, 128], rfl, rfl⟩
  | some cs =>
    by_cases hi : i < cs.length
    · obtain ⟨r, g, b, hp⟩ := packColorQ_ok (cs.get ⟨i, hi⟩)
        (hok cs rfl _ (List.get_mem cs i hi))
      refine ⟨[r, g, b], ?_, rfl⟩
      show (if h : i < cs.length then packColorQ (cs.get ⟨i, h⟩)
            else some [128, 128, 128]) = some [r, g, b]
      rw [dif_pos hi]
      exact hp
    · refine ⟨[128, 128, 128], ?_, rfl⟩
      show (if h : i < cs.length then packColorQ (cs.get ⟨i, h⟩)
            else some [128, 128, 128]) = some [128, 128, 128]
      rw [dif_neg hi]

theorem ptbAux_eq_wire (cols : Option (List Color3)) (i : Nat) :
    (match cols with
      | some cs => if h : i < cs.length then packColorQ (cs.get ⟨i, h⟩)
                   else some [128, 128, 128]
      | none => some [128, 128, 128]) = wireColorBytes cols i := rfl

theorem points_to_bytes_ok (cols : Option (List Color3))
    (hok : ∀ cs, cols = some cs → ∀ c ∈ cs, colorInUnit c) :
    ∀ (pts : List Point3) (k : Nat), ∃ raw, ptbAux cols pts k = some raw := by
  intro pts
  induction pts with
  | nil => exact fun k => ⟨[], rfl⟩
  | cons p ps ih =>
    intro k
    obtain ⟨cb, hcb, -⟩ := wireColorBytes_ok cols hok k
    obtain ⟨rest, hrest⟩ := ih (k + 1)
    refine ⟨pack3f p ++ cb ++ rest, ?_⟩
    simp only [ptbAux, ptbAux_eq_wire, hcb, hrest, Option.map_some']

theorem mkPacket_some (pts : List Point3) (cols : Option (List Color3)) (P k : Nat)
    (pkt : Packet) (h : mkPacket pts cols P k = some pkt) :
    pkt.packet_id = k + 1
    ∧ pkt.points = (pts.drop (k * P)).take (min (k * P + P) pts.length - k * P)
    ∧ pkt.colors = cols.map (fun cs => (cs.drop (k * P)).take (min (k * P + P) pts.length - k * P))
    ∧ pkt.progress = (((min (k * P + P) pts.length : Nat) : ℚ) / ((pts.length : Nat) : ℚ)) * 100
    ∧ points_to_bytes pkt.points pkt.colors = some pkt.raw_bytes := by
  unfold mkPacket at h
  dsimp only at h
  cases hpt : points_to_bytes ((pts.drop (k * P)).take (min (k * P + P) pts.length - k * P))
      (cols.map fun cs => (cs.drop (k * P)).take (min (k * P + P) pts.length - k * P)) with
  | none => rw [hpt] at h; cases h
  | some raw =>
    rw [hpt] at h
    have := Option.some.inj h
    subst this
    exact ⟨rfl, rfl, rfl, rfl, hpt⟩

theorem streamLoopF_length_le (pts : List Point3) (cols : Option (List Color3)) (P : Nat)
    (stop : Nat → Bool) : ∀ fuel k,
    (streamLoopF pts cols P stop fuel k).1.length ≤ fuel := by
  intro fuel
  induction fuel with
  | zero => intro k; simp [streamLoopF]
  | succ fuel ih =>
    intro k
    simp only [streamLoopF]
    by_cases hs : stop k
    · simp [hs]
    · simp only [hs, Bool.false_eq_true, if_false]
      cases hmk : mkPacket pts cols P k with
      | none => simp
      | some pkt => simpa using ih (k + 1)

theorem streamLoopF_getElem (pts : List Point3) (cols : Option (List Color3)) (P : Nat)
    (stop : Nat → Bool) : ∀ fuel k j,
    j < (streamLoopF pts cols P stop fuel k).1.length →
    ((streamLoopF pts cols P stop fuel k).1)[j]? = mkPacket pts cols P (k + j) := by
  intro fuel
  induction fuel with
  | zero => intro k j hj; simp [streamLoopF] at hj
  | succ fuel ih =>
    intro k j hj
    simp only [streamLoopF] at hj ⊢
    by_cases hs : stop k
    · simp [hs] at hj
    · simp only [hs, Bool.false_eq_true, if_false] at hj ⊢
      cases hmk : mkPacket pts cols P k with
      | none => rw [hmk] at hj; simp at hj
      | some pkt =>
        rw [hmk] at hj
        dsimp only at hj ⊢
        cases j with
        | zero => simpa using hmk.symm
        | succ j =>
          have hj2 : j < (streamLoopF pts cols P stop fuel (k + 1)).1.length := by
            simpa using hj
          have hrec := ih (k + 1) j hj2
          rw [show k + (j + 1) = (k + 1) + j by omega]
          simpa using hrec

theorem streamLoopF_run (pts : List Point3) (cols : Option (List Color3)) (P : Nat)
    (hok : ∀ k, (mkPacket pts cols P k).isSome) : ∀ fuel k,
    (streamLoopF pts cols P (fun _ => false) fuel k).1.length = fuel
    ∧ (streamLoopF pts cols P (fun _ => false) fuel k).2.1 = true
    ∧ (streamLoopF pts cols P (fun _ => false) fuel k).2.2 = false := by
  intro fuel
  induction fuel with
  | zero => intro k; exact ⟨rfl, rfl, rfl⟩
  | succ fuel ih =>
    intro k
    obtain ⟨pkt, hmk⟩ := Option.isSome_iff_exists.mp (hok k)
    simp only [streamLoopF, hmk, if_false]
    obtain ⟨h1, h2, h3⟩ := ih (k + 1)
    exact ⟨by simp [h1], by simp [h2], by simp [h3]⟩

theorem numPackets_zero (P : Nat) : numPackets 0 P = 0 := by
  unfold numPackets
  cases P with
  | zero => rfl
  | succ p =>
    simp only [Nat.zero_add]
    exact Nat.div_eq_of_lt (by omega)

theorem start_data_stream_elems (s : SimState) (P : Nat) (stop : Nat → Bool) :
    ∀ j, j < ((start_data_stream s P stop).2.1).length →
      ∃ pts, s.points = some pts ∧ 0 < pts.length ∧ 0 < P
        ∧ ((start_data_stream s P stop).2.1).length ≤ numPackets pts.length P
        ∧ ((start_data_stream s P stop).2.1)[j]? = mkPacket pts s.colors P j := by
  intro j hj
  unfold start_data_stream at hj ⊢
  by_cases hconn : s.is_connected = false
  · rw [if_pos hconn] at hj
    simp at hj
  · rw [if_neg hconn] at hj ⊢
    cases hp : s.points with
    | none => rw [hp] at hj; simp at hj
    | some pts =>
      rw [hp] at hj
      dsimp only at hj ⊢
      by_cases hP : P = 0
      · rw [if_pos hP] at hj; simp at hj
      · rw [if_neg hP] at hj ⊢
        dsimp only at hj ⊢
        have hlenle := streamLoopF_length_le pts s.colors P stop (numPackets pts.length P) 0
        have hN : 0 < pts.length := by
          rcases Nat.eq_zero_or_pos pts.length with h0 | h0
          · have hnp : numPackets pts.length P = 0 := by
              rw [h0]
              exact numPackets_zero P
            omega
          · exact h0
        refine ⟨pts, rfl, hN, Nat.pos_of_ne_zero hP, hlenle, ?_⟩
        have := streamLoopF_getElem pts s.colors P stop (numPackets pts.length P) 0 j hj
        simpa using this

/-- C6: within a single streaming run (any session, any packet size, any stop
schedule), the emitted packets have first sequence id 1, strictly increasing
sequence ids, and non-decreasing progress values. -/
theorem claim_C6_monotone (s : SimState) (P : Nat) (stop : Nat → Bool) :
    (∀ h : 0 < ((start_data_stream s P stop).2.1).length,
        (((start_data_stream s P stop).2.1).get ⟨0, h⟩).packet_id = 1)
    ∧ (∀ j (hj1 : j < ((start_data_stream s P stop).2.1).length)
        (hj2 : j + 1 < ((start_data_stream s P stop).2.1).length),
        (((start_data_stream s P stop).2.1).get ⟨j, hj1⟩).packet_id
          < (((start_data_stream s P stop).2.1).get ⟨j + 1, hj2⟩).packet_id)
    ∧ (∀ j (hj1 : j < ((start_data_stream s P stop).2.1).length)
        (hj2 : j + 1 < ((start_data_stream s P stop).2.1).length),
        (((start_data_stream s P stop).2.1).get ⟨j, hj1⟩).progress
          ≤ (((start_data_stream s P stop).2.1).get ⟨j + 1, hj2⟩).progress) := by
  have hval : ∀ j (hj : j < ((start_data_stream s P stop).2.1).length),
      ∃ pts, s.points = some pts ∧ 0 < pts.length ∧ 0 < P ∧
        some (((start_data_stream s P stop).2.1).get ⟨j, hj⟩)
          = mkPacket pts s.colors P j := by
    intro j hj
    obtain ⟨pts, hpts, hN, hP, -, hget⟩ := start_data_stream_elems s P stop j hj
    refine ⟨pts, hpts, hN, hP, ?_⟩
    rw [← hget]
    exact (List.getElem?_eq_getElem hj).symm
  have hid : ∀ j (hj : j < ((start_data_stream s P stop).2.1).length),
      (((start_data_stream s P stop).2.1).get ⟨j, hj⟩).packet_id = j + 1 := by
    intro j hj
    obtain ⟨pts, -, -, -, hsome⟩ := hval j hj
    exact (mkPacket_some pts s.colors P j _ hsome.symm).1
  refine ⟨fun h => hid 0 h, fun j hj1 hj2 => ?_, fun j hj1 hj2 => ?_⟩
  · rw [hid j hj1, hid (j + 1) hj2]
    omega
  · obtain ⟨pts, hpts, hN, hP, hsome⟩ := hval j hj1
    obtain ⟨pts2, hpts2, -, -, hsome2⟩ := hval (j + 1) hj2
    have hpe : pts2 = pts := by
      rw [hpts] at hpts2
      exact (Option.some.inj hpts2).symm
    rw [hpe] at hsome2
    have e1 := (mkPacket_some pts s.colors P j _ hsome.symm).2.2.2.1
    have e2 := (mkPacket_some pts s.colors P (j + 1) _ hsome2.symm).2.2.2.1
    rw [e1, e2]
    have hmin : min (j * P + P) pts.length ≤ min ((j + 1) * P + P) pts.length := by
      apply min_le_min _ le_rfl
      have : j * P ≤ (j + 1) * P := Nat.mul_le_mul_right P (by omega)
      omega
    have hNpos : (0 : ℚ) < ((pts.length : Nat) : ℚ) := by exact_mod_cast hN
    have hdiv : ((min (j * P + P) pts.length : Nat) : ℚ)
        ≤ ((min ((j + 1) * P + P) pts.length : Nat) : ℚ) := by exact_mod_cast hmin
    exact mul_le_mul_of_nonneg_right ((div_le_div_iff_of_pos_right hNpos).mpr hdiv) (by norm_num)

theorem wireColorBytes_length (cols? : Option (List Color3)) (i : Nat) (cb : List Nat)
    (h : wireColorBytes cols? i = some cb) : cb.length = 3 := by
  cases cols? with
  | none =>
    have : [128, 128, 128] = cb := Option.some.inj h
    rw [← this]
    rfl
  | some cs =>
    by_cases hi : i < cs.length
    · have h2 : packColorQ (cs.get ⟨i, hi⟩) = some cb := by
        rw [← h]
        show _ = (if h : i < cs.length then packColorQ (cs.get ⟨i, h⟩)
            else some [128, 128, 128])
        rw [dif_pos hi]
      unfold packColorQ at h2
      split at h2
      · have := Option.some.inj h2
        rw [← this]
        rfl
      · cases h2
    · have h2 : some [128, 128, 128] = some cb := by
        rw [← h]
        show _ = (if h : i < cs.length then packColorQ (cs.get ⟨i, h⟩)
            else some [128, 128, 128])
        rw [dif_neg hi]
      have := Option.some.inj h2
      rw [← this]
      rfl

theorem ptbAux_spec (cols : Option (List Color3)) :
    ∀ (pts : List Point3) (k : Nat) (raw : List Nat), ptbAux cols pts k = some raw →
    raw.length = 15 * pts.length
    ∧ ∀ j (hj : j < pts.length),
        (raw.drop (15 * j)).take 12 = pack3f (pts.get ⟨j, hj⟩)
        ∧ some ((raw.drop (15 * j + 12)).take 3) = wireColorBytes cols (k + j) := by
  intro pts
  induction pts with
  | nil =>
    intro k raw h
    have hr : ([] : List Nat) = raw := Option.some.inj h
    subst hr
    exact ⟨by simp, fun j hj => absurd hj (by simp)⟩
  | cons p ps ih =>
    intro k raw h
    simp only [ptbAux, ptbAux_eq_wire] at h
    cases hw : wireColorBytes cols k with
    | none => rw [hw] at h; cases h
    | some cb =>
      rw [hw] at h
      dsimp only at h
      rw [Option.map_eq_some'] at h
      obtain ⟨rest, hrest, heq⟩ := h
      subst heq
      obtain ⟨hlen, hidx⟩ := ih (k + 1) rest hrest
      have hcb3 : cb.length = 3 := wireColorBytes_length cols k cb hw
      have hfront : (15 : Nat) = (pack3f p ++ cb).length := by
        simp [List.length_append, hcb3, pack3f]
      constructor
      · simp only [List.length_append, hlen, hcb3, List.length_cons, pack3f]
        simp
        ring
      · intro j hj
        have hassoc : pack3f p ++ cb ++ rest = pack3f p ++ (cb ++ rest) :=
          List.append_assoc _ _ _
        have hd15 : (pack3f p ++ cb ++ rest).drop 15 = rest := by
          rw [hfront]
          exact List.drop_left _ _
        cases j with
        | zero =>
          constructor
          · simp only [Nat.mul_zero, List.drop_zero]
            rw [hassoc, show (12 : Nat) = (pack3f p).length from rfl, List.take_left]
            rfl
          · simp only [Nat.mul_zero, Nat.zero_add]
            rw [hassoc, show (12 : Nat) = (pack3f p).length from rfl, List.drop_left]
            rw [show (3 : Nat) = cb.length from hcb3.symm, List.take_left, Nat.add_zero]
            exact hw.symm
        | succ j =>
          have hj2 : j < ps.length := by simpa using hj
          obtain ⟨hA, hB⟩ := hidx j hj2
          have hdrop : ∀ m : Nat,
              (pack3f p ++ cb ++ rest).drop (15 * (j + 1) + m)
                = rest.drop (15 * j + m) := by
            intro m
            have h1 : 15 * (j + 1) + m = 15 + (15 * j + m) := by ring
            rw [h1, ← List.drop_drop, hd15]
          constructor
          · have hd := hdrop 0
            simp only [Nat.add_zero] at hd
            rw [hd, hA]
            rfl
          · rw [hdrop 12, hB]
            congr 1
            omega

/-- C5: every packet emitted by the packetizer carries `raw_bytes` of exactly
15 bytes per point of its slice: the 12 little-endian float bytes of x, y, z
followed by the 3 color bytes, where `(128, 128, 128)` is substituted for any
point index without a supplied color (`wireColorBytes`), independent of the
source file's on-disk encoding (the model serializes only the in-memory
slice). -/
theorem claim_C5_wire_format (s : SimState) (P : Nat) (stop : Nat → Bool) (pkt : Packet)
    (hmem : pkt ∈ (start_data_stream s P stop).2.1) :
    pkt.raw_bytes.length = 15 * pkt.points.length
    ∧ ∀ j (hj : j < pkt.points.length),
        (pkt.raw_bytes.drop (15 * j)).take 12
          = f32le (pkt.points.get ⟨j, hj⟩).x ++ f32le (pkt.points.get ⟨j, hj⟩).y
            ++ f32le (pkt.points.get ⟨j, hj⟩).z
        ∧ some ((pkt.raw_bytes.drop (15 * j + 12)).take 3) = wireColorBytes pkt.colors j := by
  obtain ⟨i, hi⟩ := List.mem_iff_get.mp hmem
  obtain ⟨pts, hpts, hN, hP, hle, hget⟩ := start_data_stream_elems s P stop i.1 i.2
  have hsome : some pkt = mkPacket pts s.colors P i.1 := by
    rw [← hget, List.getElem?_eq_getElem i.2]
    rw [← hi]
    rfl
  have hfields := mkPacket_some pts s.colors P i.1 pkt hsome.symm
  obtain ⟨hlen2, hidx⟩ := ptbAux_spec pkt.colors pkt.points 0 pkt.raw_bytes hfields.2.2.2.2
  refine ⟨hlen2, fun j hj => ?_⟩
  obtain ⟨hA, hB⟩ := hidx j hj
  refine ⟨?_, ?_⟩
  · rw [hA]
    rfl
  · rw [hB, Nat.zero_add]

theorem take_min_eq {α : Type} (l : List α) (i P : Nat) :
    (l.drop i).take (min (i + P) l.length - i) = (l.drop i).take P := by
  rw [List.take_eq_take]
  simp only [List.length_drop]
  omega

theorem le_numPackets_mul (N P : Nat) (hP : 0 < P) : N ≤ numPackets N P * P := by
  unfold numPackets
  have h := Nat.div_add_mod (N + P - 1) P
  have hBlt : (N + P - 1) % P < P := Nat.mod_lt _ hP
  rw [Nat.mul_comm]
  generalize hM : P * ((N + P - 1) / P) = M at h ⊢
  omega

theorem join_chunks {α : Type} (P : Nat) (hP : 0 < P) :
    ∀ (c : Nat) (l : List α), numPackets l.length P = c →
    ((List.range c).map fun k => (l.drop (k * P)).take P).flatten = l := by
  intro c
  induction c with
  | zero =>
    intro l hc
    have hl : l.length = 0 := by
      by_contra h0
      have h1 : 0 < l.length := Nat.pos_of_ne_zero h0
      have h2 : 1 ≤ numPackets l.length P := by
        unfold numPackets
        rw [Nat.le_div_iff_mul_le hP]
        omega
      omega
    have : l = [] := List.length_eq_zero.mp hl
    subst this
    simp
  | succ c ih =>
    intro l hc
    have hlen : 0 < l.length := by
      by_contra h0
      push_neg at h0
      have hl0 : l.length = 0 := by omega
      rw [hl0, numPackets_zero] at hc
      exact absurd hc (by omega)
    have hnext : numPackets (l.drop P).length P = c := by
      rw [List.length_drop]
      unfold numPackets at hc ⊢
      rcases Nat.lt_or_ge P l.length with hPl | hPl
      · have e1 : l.length + P - 1 = (l.length - 1) + P := by omega
        rw [e1, Nat.add_div_right _ hP] at hc
        have e2 : l.length - P + P - 1 = (l.length - P - 1) + P := by omega
        rw [e2, Nat.add_div_right _ hP]
        have e3 : l.length - 1 = (l.length - P - 1) + P := by omega
        rw [e3, Nat.add_div_right _ hP] at hc
        omega
      · have hd0 : l.length - P = 0 := by omega
        rw [hd0]
        have e1 : l.length + P - 1 = (l.length - 1) + P := by omega
        rw [e1, Nat.add_div_right _ hP] at hc
        have e4 : (l.length - 1) / P = 0 := Nat.div_eq_of_lt (by omega)
        rw [e4] at hc
        have hc0 : c = 0 := by omega
        rw [hc0]
        exact Nat.div_eq_of_lt (by omega)
    rw [List.range_succ_eq_map, List.map_cons, List.flatten_cons, List.map_map]
    have hmap : ((fun k => (l.drop (k * P)).take P) ∘ Nat.succ)
        = fun k => ((l.drop P).drop (k * P)).take P := by
      funext k
      simp only [Function.comp_apply]
      rw [List.drop_drop]
      congr 2
      rw [Nat.succ_mul]
      omega
    rw [hmap, ih (l.drop P) hnext]
    simp

theorem mkPacket_isSome_of_ok (pts : List Point3) (cols : List Color3) (P : Nat)
    (hok : ∀ c ∈ cols, colorInUnit c) (k : Nat) :
    (mkPacket pts (some cols) P k).isSome := by
  have hsub : ∀ cs2, (some ((cols.drop (k * P)).take (min (k * P + P) pts.length - k * P))
        : Option (List Color3)) = some cs2 → ∀ c ∈ cs2, colorInUnit c := by
    intro cs2 hcs2 c hc
    have he : cs2 = (cols.drop (k * P)).take (min (k * P + P) pts.length - k * P) :=
      (Option.some.inj hcs2).symm
    subst he
    exact hok c (List.mem_of_mem_drop (List.mem_of_mem_take hc))
  obtain ⟨raw, hraw⟩ := points_to_bytes_ok _ hsub
    ((pts.drop (k * P)).take (min (k * P + P) pts.length - k * P)) 0
  unfold mkPacket
  dsimp only [Option.map_some']
  unfold points_to_bytes
  rw [hraw]
  rfl

/-- C1 (amended): for every loaded PointSet of size `N` whose color channels
all lie in `[0, 1]` and every `packet_size P > 0`, streaming with the session
connected and no stop request emits exactly `⌈N / P⌉` packets when `N > 0`
(and terminates immediately with no packets when `N = 0`), the concatenation
of the packets' point slices is the original PointSet in order, and the final
packet has progress exactly 100. -/
theorem claim_C1_packetization (s : SimState) (pts : List Point3) (cols : List Color3)
    (P : Nat) (hP : 0 < P) (hconn : s.is_connected = true) (hpts : s.points = some pts)
    (hcols : s.colors = some cols) (hok : ∀ c ∈ cols, colorInUnit c) :
    (0 < pts.length →
      ((start_data_stream s P (fun _ => false)).2.1).length = (pts.length + P - 1) / P
      ∧ ((((start_data_stream s P (fun _ => false)).2.1).map Packet.points).flatten = pts)
      ∧ ∀ hne : (start_data_stream s P (fun _ => false)).2.1 ≠ [],
          (((start_data_stream s P (fun _ => false)).2.1).getLast hne).progress = 100)
    ∧ (pts.length = 0 → (start_data_stream s P (fun _ => false)).2.1 = []) := by
  have hred : (start_data_stream s P (fun _ => false)).2.1
      = (streamLoopF pts (some cols) P (fun _ => false) (numPackets pts.length P) 0).1 := by
    unfold start_data_stream
    rw [if_neg (by rw [hconn]; simp), hpts]
    dsimp only
    rw [if_neg (by omega)]
    rw [hcols]
  have hall : ∀ k, (mkPacket pts (some cols) P k).isSome :=
    mkPacket_isSome_of_ok pts cols P hok
  obtain ⟨hlen, hfl, -⟩ := streamLoopF_run pts (some cols) P hall (numPackets pts.length P) 0
  constructor
  · intro hNpos
    refine ⟨by rw [hred, hlen]; rfl, ?_, ?_⟩
    · rw [hred]
      have hmapeq : ((streamLoopF pts (some cols) P (fun _ => false)
            (numPackets pts.length P) 0).1).map Packet.points
          = (List.range (numPackets pts.length P)).map fun k => (pts.drop (k * P)).take P := by
        apply List.ext_get
        · simp [hlen]
        · intro n h1 h2
          simp only [List.get_eq_getElem, List.getElem_map]
          have hn : n < (streamLoopF pts (some cols) P (fun _ => false)
              (numPackets pts.length P) 0).1.length := by
            simpa using h1
          have hgot := streamLoopF_getElem pts (some cols) P (fun _ => false)
            (numPackets pts.length P) 0 n hn
          have hsome : some ((streamLoopF pts (some cols) P (fun _ => false)
                (numPackets pts.length P) 0).1.get ⟨n, hn⟩)
              = mkPacket pts (some cols) P (0 + n) := by
            rw [← hgot]
            exact (List.getElem?_eq_getElem hn).symm
          have hfields := mkPacket_some pts (some cols) P (0 + n) _ hsome.symm
          simp only [List.get_eq_getElem] at hfields
          rw [hfields.2.1]
          rw [show (0 + n) = n from by omega]
          rw [take_min_eq]
          simp [List.get_eq_getElem, List.getElem_range]
      rw [hmapeq]
      exact join_chunks P hP (numPackets pts.length P) pts rfl
    · intro hne
      have hne2 : (streamLoopF pts (some cols) P (fun _ => false)
          (numPackets pts.length P) 0).1 ≠ [] := by
        rw [← hred]
        exact hne
      have hlpos : 0 < (streamLoopF pts (some cols) P (fun _ => false)
          (numPackets pts.length P) 0).1.length := List.length_pos.mpr hne2
      have hm : (streamLoopF pts (some cols) P (fun _ => false)
            (numPackets pts.length P) 0).1.length - 1
          < (streamLoopF pts (some cols) P (fun _ => false)
            (numPackets pts.length P) 0).1.length := by omega
      have hgot := streamLoopF_getElem pts (some cols) P (fun _ => false)
        (numPackets pts.length P) 0
        ((streamLoopF pts (some cols) P (fun _ => false)
          (numPackets pts.length P) 0).1.length - 1) hm
      obtain ⟨pkt, hpkt⟩ := Option.isSome_iff_exists.mp
        (hall (0 + ((streamLoopF pts (some cols) P (fun _ => false)
          (numPackets pts.length P) 0).1.length - 1)))
      have hglast : ((start_data_stream s P (fun _ => false)).2.1).getLast hne = pkt := by
        have h1 : ((start_data_stream s P (fun _ => false)).2.1).getLast?
            = some (((start_data_stream s P (fun _ => false)).2.1).getLast hne) :=
          List.getLast?_eq_getLast_of_ne_nil hne
        have h2 : ((start_data_stream s P (fun _ => false)).2.1).getLast? = some pkt := by
          rw [hred, List.getLast?_eq_getElem?, hgot, hpkt]
        rw [h1] at h2
        exact Option.some.inj h2
      rw [hglast]
      have hfields := mkPacket_some pts (some cols) P _ pkt hpkt
      rw [hfields.2.2.2.1]
      have hnum1 : 1 ≤ numPackets pts.length P := by
        rw [← hlen]
        omega
      have hidx : (0 + ((streamLoopF pts (some cols) P (fun _ => false)
            (numPackets pts.length P) 0).1.length - 1)) * P + P
          = numPackets pts.length P * P := by
        rw [hlen]
        cases hcq : numPackets pts.length P with
        | zero => rw [hcq] at hnum1; omega
        | succ m =>
          rw [Nat.succ_mul]
          simp
      rw [hidx]
      have hminN : min (numPackets pts.length P * P) pts.length = pts.length :=
        min_eq_right (le_numPackets_mul pts.length P hP)
      rw [hminN]
      have hcast : ((pts.length : Nat) : ℚ) ≠ 0 := by
        have hne0 : pts.length ≠ 0 := by omega
        exact_mod_cast hne0
      rw [div_self hcast]
      norm_num
  · intro hN0
    rw [hred, hN0, numPackets_zero]
    rfl

/-! ## Counterexample and witnesses -/

set_option maxRecDepth 20000 in
unseal Rat.mul Rat.inv Rat.add Rat.sub in
/-- C1 counterexample: the claim fails as stated.  The ASCII file
`cexContent` declares one vertex whose red token is `300`; `load_ply_file`
accepts it (a loaded PointSet of size `N = 1`), `connect_hardware` succeeds,
yet iterating the stream with `packet_size = 1` and no stop request emits 0
packets — `points_to_bytes` raises `struct.error` on the out-of-range color
byte before the first yield — instead of the claimed `⌈1 / 1⌉ = 1`. -/
theorem claim_C1_counterexample :
    (load_ply_file cexFloatFn (some cexContent) (strBytes "bad.ply") initState).1 = true
    ∧ cexConnected.is_connected = true
    ∧ (cexConnected.points.map List.length) = some 1
    ∧ (start_data_stream cexConnected 1 (fun _ => false)).1 = StreamOutcome.streamError
    ∧ ((start_data_stream cexConnected 1 (fun _ => false)).2.1).length ≠ (1 + 1 - 1) / 1 := by
  decide

set_option maxRecDepth 20000 in
unseal Rat.mul Rat.inv Rat.add Rat.sub in
/-- C1 witness: the amended theorem applied to the two-point demo session with
`packet_size = 1`. -/
theorem claim_C1_witness :
    (0 < (2 : Nat) →
      ((start_data_stream demoSession 1 (fun _ => false)).2.1).length = (2 + 1 - 1) / 1
      ∧ ((((start_data_stream demoSession 1 (fun _ => false)).2.1).map Packet.points).flatten
          = [⟨⟨0, 0, 0, 0⟩, ⟨0, 0, 0, 0⟩, ⟨0, 0, 0, 0⟩⟩,
             ⟨⟨0, 0, 128, 63⟩, ⟨0, 0, 0, 64⟩, ⟨0, 0, 64, 64⟩⟩])
      ∧ ∀ hne : (start_data_stream demoSession 1 (fun _ => false)).2.1 ≠ [],
          (((start_data_stream demoSession 1 (fun _ => false)).2.1).getLast hne).progress = 100)
    ∧ ((2 : Nat) = 0 → (start_data_stream demoSession 1 (fun _ => false)).2.1 = []) :=
  claim_C1_packetization demoSession _ _ 1 (by decide) rfl rfl rfl (by decide)

/-- C2 witness: a file declaring 2 vertices with a single complete colorless
record loads successfully with exactly 1 point. -/
theorem claim_C2_witness :
    (([(⟨⟨0, 0, 0, 0⟩, ⟨0, 0, 0, 0⟩, ⟨0, 0, 0, 0⟩⟩, ((0 : Nat), (0 : Nat), (0 : Nat)))]
        : List (Point3 × (Nat × Nat × Nat))).length < 2)
    ∧ ∃ pts s2, load_ply_file (fun _ => none)
        (some (mkBinFile 2 false
          (([(⟨⟨0, 0, 0, 0⟩, ⟨0, 0, 0, 0⟩, ⟨0, 0, 0, 0⟩⟩, ((0 : Nat), (0 : Nat), (0 : Nat)))]
            : List (Point3 × (Nat × Nat × Nat))).flatMap
            fun pc => encRec false pc.1 pc.2))) (strBytes "t.ply") initState = (true, s2)
        ∧ s2.points = some pts
        ∧ pts.length
          = ([(⟨⟨0, 0, 0, 0⟩, ⟨0, 0, 0, 0⟩, ⟨0, 0, 0, 0⟩⟩, ((0 : Nat), (0 : Nat), (0 : Nat)))]
            : List (Point3 × (Nat × Nat × Nat))).length :=
  ⟨by decide,
   claim_C2_truncation (fun _ => none) 2 false _ (strBytes "t.ply") initState (by decide)⟩

/-- C3 witness: round trip of one point with color bytes (10, 20, 30). -/
theorem claim_C3_witness :
    (([((10 : Nat), (20 : Nat), (30 : Nat))] : List (Nat × Nat × Nat)).length
      = ([⟨⟨0, 0, 0, 0⟩, ⟨0, 0, 0, 0⟩, ⟨0, 0, 0, 0⟩⟩] : List Point3).length)
    ∧ ∃ rpts rcols info,
      loadPLYContent (fun _ => none)
          (create_test_ply_bytes [⟨⟨0, 0, 0, 0⟩, ⟨0, 0, 0, 0⟩, ⟨0, 0, 0, 0⟩⟩]
            [((10 : Nat), (20 : Nat), (30 : Nat))]) = some (rpts, rcols, info)
      ∧ rpts = [⟨⟨0, 0, 0, 0⟩, ⟨0, 0, 0, 0⟩, ⟨0, 0, 0, 0⟩⟩]
      ∧ rcols = ([((10 : Nat), (20 : Nat), (30 : Nat))] : List (Nat × Nat × Nat)).map
          (fun c => normColor c.1 c.2.1 c.2.2)
      ∧ rcols.length = ([⟨⟨0, 0, 0, 0⟩, ⟨0, 0, 0, 0⟩, ⟨0, 0, 0, 0⟩⟩] : List Point3).length
      ∧ ∀ i (hi : i < ([((10 : Nat), (20 : Nat), (30 : Nat))] : List (Nat × Nat × Nat)).length)
          (hi2 : i < rcols.length),
          |(rcols.get ⟨i, hi2⟩).r
            - ((([((10 : Nat), (20 : Nat), (30 : Nat))] : List (Nat × Nat × Nat)).get
                ⟨i, hi⟩).1 : ℚ) / 255| ≤ 1 / 255
          ∧ |(rcols.get ⟨i, hi2⟩).g
            - ((([((10 : Nat), (20 : Nat), (30 : Nat))] : List (Nat × Nat × Nat)).get
                ⟨i, hi⟩).2.1 : ℚ) / 255| ≤ 1 / 255
          ∧ |(rcols.get ⟨i, hi2⟩).b
            - ((([((10 : Nat), (20 : Nat), (30 : Nat))] : List (Nat × Nat × Nat)).get
                ⟨i, hi⟩).2.2 : ℚ) / 255| ≤ 1 / 255 :=
  ⟨by decide,
   claim_C3_roundtrip (fun _ => none) [⟨⟨0, 0, 0, 0⟩, ⟨0, 0, 0, 0⟩, ⟨0, 0, 0, 0⟩⟩]
     [((10 : Nat), (20 : Nat), (30 : Nat))] (by decide)⟩

/-- C4 witness: a file starting with `x` fails and changes nothing. -/
theorem claim_C4_witness :
    pyStrip (readLine [120, 10]).1 ≠ plyTok
    ∧ load_ply_file (fun _ => none) (some [120, 10]) (strBytes "t.ply") initState
        = (false, initState) :=
  ⟨by decide,
   claim_C4_bad_magic (fun _ => none) [120, 10] (strBytes "t.ply") initState (by decide)⟩

set_option maxRecDepth 20000 in
unseal Rat.mul Rat.inv Rat.add Rat.sub in
/-- C5 witness: the packet emitted by the demo session with `packet_size = 2`
has the 15-byte-per-point wire layout. -/
theorem claim_C5_witness :
    demoPacket ∈ (start_data_stream demoSession 2 (fun _ => false)).2.1
    ∧ (demoPacket.raw_bytes.length = 15 * demoPacket.points.length
      ∧ ∀ j (hj : j < demoPacket.points.length),
          (demoPacket.raw_bytes.drop (15 * j)).take 12
            = f32le (demoPacket.points.get ⟨j, hj⟩).x
              ++ f32le (demoPacket.points.get ⟨j, hj⟩).y
              ++ f32le (demoPacket.points.get ⟨j, hj⟩).z
          ∧ some ((demoPacket.raw_bytes.drop (15 * j + 12)).take 3)
              = wireColorBytes demoPacket.colors j) :=
  ⟨by decide, claim_C5_wire_format demoSession 2 (fun _ => false) demoPacket (by decide)⟩

set_option maxRecDepth 20000 in
unseal Rat.mul Rat.inv Rat.add Rat.sub in
/-- C6 witness: the two packets of the demo session streamed with
`packet_size = 1` have ids 1 then 2 and non-decreasing progress. -/
theorem claim_C6_witness :
    ∃ (h1 : 0 < ((start_data_stream demoSession 1 (fun _ => false)).2.1).length)
      (h2 : 1 < ((start_data_stream demoSession 1 (fun _ => false)).2.1).length),
      (((start_data_stream demoSession 1 (fun _ => false)).2.1).get ⟨0, h1⟩).packet_id = 1
      ∧ (((start_data_stream demoSession 1 (fun _ => false)).2.1).get ⟨0, h1⟩).packet_id
          < (((start_data_stream demoSession 1 (fun _ => false)).2.1).get ⟨1, h2⟩).packet_id
      ∧ (((start_data_stream demoSession 1 (fun _ => false)).2.1).get ⟨0, h1⟩).progress
          ≤ (((start_data_stream demoSession 1 (fun _ => false)).2.1).get ⟨1, h2⟩).progress := by
  refine ⟨by decide, by decide, ?_, ?_, ?_⟩
  · exact (claim_C6_monotone demoSession 1 (fun _ => false)).1 _
  · exact (claim_C6_monotone demoSession 1 (fun _ => false)).2.1 0 _ _
  · exact (claim_C6_monotone demoSession 1 (fun _ => false)).2.2 0 _ _

set_option maxRecDepth 20000 in
unseal Rat.mul Rat.inv Rat.add Rat.sub in
/-- C9 witness: a binary file declaring colors whose single record is cut
after 2 of its 3 color bytes loads successfully; the record lacking color
data gets the default gray entry even though the header declares colors, and
the theorem's invariants hold at the loaded state. -/
theorem claim_C9_witness :
    load_ply_file (fun _ => none) (some shortColorContent) (strBytes "s.ply") initState
      = (true, shortColorLoadedState)
    ∧ shortColorLoadedState.colors = some [grayColor]
    ∧ shortColorLoadedState.info = some (canonInfo 1 true)
    ∧ (canonInfo 1 true).has_color = true
    ∧ (∃ pts cols, shortColorLoadedState.points = some pts
        ∧ shortColorLoadedState.colors = some cols
        ∧ cols.length = pts.length
        ∧ ∀ info, shortColorLoadedState.info = some info → info.has_color = false →
            ∀ c ∈ cols, c = grayColor) := by
  refine ⟨by decide, by decide, by decide, by decide, ?_⟩
  exact (claim_C9_colors_parallel (fun _ => none) (some shortColorContent)
    (strBytes "s.ply") initState shortColorLoadedState (by decide)).1

/-- C10 witness: a missing file fails and leaves the fresh session unchanged. -/
theorem claim_C10_witness :
    (load_ply_file (fun _ => none) none (strBytes "t.ply") initState).1 = false
    ∧ (load_ply_file (fun _ => none) none (strBytes "t.ply") initState).2 = initState :=
  ⟨rfl, claim_C10_load_atomic (fun _ => none) none (strBytes "t.ply") initState rfl⟩
